import Mathlib

/-!
# Dual KXR94-2050 accelerometer bar controller (`src/main.cpp`)

Shallow embedding of the firmware's signal pipeline:
raw ADC read → conversion to g → calibration → exponential low-pass → CSV emission.

* `float` values are modelled by `ℚ`: the definitions named after the source compute in exact
  arithmetic, the ones ending in `F32` round every operation to IEEE 754 binary32.
* `unsigned long` (32 bit on the ESP32) is modelled by `Nat` with explicit `% 2 ^ 32`.
* The board (ADC, delays, serial port) is the explicit state `Hw`; the globals of the
  sketch are the explicit state `State`.
-/

namespace BarController

/-! ## Constants (main.cpp lines 17-44) -/

def X_PIN_1 : Nat := 32
def Y_PIN_1 : Nat := 33
def Z_PIN_1 : Nat := 25

def X_PIN_2 : Nat := 26
def Y_PIN_2 : Nat := 19
def Z_PIN_2 : Nat := 27

def SUPPLY_VOLTAGE : ℚ := 33 / 10
def SENSITIVITY : ℚ := 66 / 100
def ZERO_G_OFFSET : ℚ := 165 / 100
def ADC_MAX : Int := 4095

def LPF_ALPHA : ℚ := 6 / 10

def sampleInterval : Nat := 10

/-- Number of values of an `unsigned long` on the target (32 bit). -/
def ULONG_MOD : Nat := 2 ^ 32

/-! ## Data model -/

/-- A `float[3]` array: index 0 is `x`, 1 is `y`, 2 is `z`. -/
structure Vec3 where
  x : ℚ
  y : ℚ
  z : ℚ
deriving DecidableEq, Repr

/-- Array read `v[i]`. -/
def Vec3.get (v : Vec3) (i : Nat) : ℚ :=
  match i with
  | 0 => v.x
  | 1 => v.y
  | _ => v.z

/-- Array write `v[i] = a`. -/
def Vec3.set (v : Vec3) (i : Nat) (a : ℚ) : Vec3 :=
  match i with
  | 0 => { v with x := a }
  | 1 => { v with y := a }
  | _ => { v with z := a }

/-- What the board has been asked to do on the analog side, in program order. -/
inductive Event where
  | read (pin : Nat)
  | delay (ms : Nat)
deriving DecidableEq, Repr

/-- One item written to the serial port. -/
inductive Tok where
  | text (s : String)
  | uint (n : Nat)
  | chr (c : Char)
  | flt (v : ℚ) (digits : Nat)
  | ln
deriving DecidableEq, Repr

/-- The board. `adc pin n` is the raw value the converter yields on `pin` when `n` events
(reads and delays) have already happened; `trace` and `serial` list the oldest item first. -/
structure Hw where
  adc : Nat → Nat → Int
  trace : List Event
  serial : List Tok
  baud : Nat
  resolution : Nat
  attenuation : Nat

/-- The globals of the sketch (main.cpp lines 33-43). -/
structure State where
  offset1 : Vec3
  offset2 : Vec3
  filt1 : Vec3
  filt2 : Vec3
  lastSample : Nat
deriving DecidableEq, Repr

/-- Initial values of the globals. -/
def State.init : State :=
  { offset1 := ⟨0, 0, 0⟩, offset2 := ⟨0, 0, 0⟩,
    filt1 := ⟨0, 0, 0⟩, filt2 := ⟨0, 0, 0⟩, lastSample := 0 }

/-! ## Board primitives -/

/-- Arduino `analogRead(pin)`. -/
def analogRead (pin : Nat) (hw : Hw) : Int × Hw :=
  (hw.adc pin hw.trace.length, { hw with trace := hw.trace ++ [Event.read pin] })

/-- Arduino `delay(ms)`. -/
def delay (ms : Nat) (hw : Hw) : Hw :=
  { hw with trace := hw.trace ++ [Event.delay ms] }

/-- One `Serial.print` call. -/
def serialPrint (t : Tok) (hw : Hw) : Hw :=
  { hw with serial := hw.serial ++ [t] }

/-- The call `Serial.println(const char*)`. -/
def serialPrintln (s : String) (hw : Hw) : Hw :=
  serialPrint Tok.ln (serialPrint (Tok.text s) hw)

/-- The 11 dB attenuation setting `ADC_11db`. -/
def ADC_11db : Nat := 3

/-! ## The sketch -/

/-- Source: `adcToAccel` (lines 47-50). -/
def adcToAccel (adcValue : Int) : ℚ :=
  let voltage : ℚ := ((adcValue : ℚ) * SUPPLY_VOLTAGE) / (ADC_MAX : ℚ)
  (voltage - ZERO_G_OFFSET) / SENSITIVITY

/-- Source: `readAccel` (lines 53-57). -/
def readAccel (xPin yPin zPin : Nat) (hw : Hw) : Vec3 × Hw :=
  let rx := analogRead xPin hw
  let ry := analogRead yPin rx.2
  let rz := analogRead zPin ry.2
  (⟨adcToAccel rx.1, adcToAccel ry.1, adcToAccel rz.1⟩, rz.2)

/-- The `for` loop of `calibrate` (lines 65-71) with `n` iterations left. -/
def calibrateLoop (xPin yPin zPin : Nat) : Nat → Vec3 → Hw → Vec3 × Hw
  | 0, sum, hw => (sum, hw)
  | n + 1, sum, hw =>
    let r := readAccel xPin yPin zPin hw
    let accel := r.1
    let sum1 : Vec3 := ⟨sum.x + accel.x, sum.y + accel.y, sum.z + accel.z⟩
    calibrateLoop xPin yPin zPin n sum1 (delay 5 r.2)

/-- Source: `calibrate` (lines 60-76); the result is the `offsets` array. -/
def calibrate (xPin yPin zPin : Nat) (hw : Hw) : Vec3 × Hw :=
  let samples : Nat := 200
  let r := calibrateLoop xPin yPin zPin samples ⟨0, 0, 0⟩ hw
  let sum := r.1
  (⟨sum.x / samples, sum.y / samples, sum.z / samples - 1⟩, r.2)

/-- The `for` loop of `lowPass` from index `i` with `n` iterations left. -/
def lowPassLoop (inp : Vec3) (alpha : ℚ) : Nat → Nat → Vec3 → Vec3
  | 0, _, out => out
  | n + 1, i, out =>
    lowPassLoop inp alpha n (i + 1) (out.set i (alpha * inp.get i + (1 - alpha) * out.get i))

/-- Source: `lowPass` (lines 79-83); the result is the updated `out` array. -/
def lowPass (inp out : Vec3) (alpha : ℚ) : Vec3 :=
  lowPassLoop inp alpha 3 0 out

/-- Source: `setup` (lines 85-108); the wait `while (!Serial)` is taken to end at once. -/
def setup (s : State) (hw : Hw) : State × Hw :=
  let hw := { hw with baud := 115200 }
  let hw := { hw with resolution := 12 }
  let hw := { hw with attenuation := ADC_11db }
  let hw := serialPrintln "M5Atom + KXR94-2050 Bar Controller" hw
  let hw := serialPrintln "Calibrating sensors (keep still)..." hw
  let c1 := calibrate X_PIN_1 Y_PIN_1 Z_PIN_1 hw
  let c2 := calibrate X_PIN_2 Y_PIN_2 Z_PIN_2 c1.2
  let s := { s with offset1 := c1.1, offset2 := c2.1 }
  let s := { s with
    filt1 := ⟨-s.offset1.x, -s.offset1.y, -s.offset1.z⟩,
    filt2 := ⟨-s.offset2.x, -s.offset2.y, -s.offset2.z⟩ }
  let hw := serialPrintln "Calibration complete!" c2.2
  let hw := serialPrintln "time_ms,ax1,ay1,az1,ax2,ay2,az2" hw
  (s, hw)

/-- The unsigned subtraction `now - lastSample` on `unsigned long`. -/
def elapsed (now lastSample : Nat) : Nat :=
  (now + ULONG_MOD - lastSample % ULONG_MOD) % ULONG_MOD

/-- The statements `accel[k] -= offset[k]` for `k = 0, 1, 2` (lines 122-128). -/
def subOffset (accel offset : Vec3) : Vec3 :=
  ⟨accel.x - offset.x, accel.y - offset.y, accel.z - offset.z⟩

/-- The CSV output block of `loop` (lines 135-143). -/
def printRecord (now : Nat) (f1 f2 : Vec3) (hw : Hw) : Hw :=
  let hw := serialPrint (Tok.uint now) hw
  let hw := serialPrint (Tok.chr ',') hw
  let hw := serialPrint (Tok.flt (f1.get 0) 4) hw
  let hw := serialPrint (Tok.chr ',') hw
  let hw := serialPrint (Tok.flt (f1.get 1) 4) hw
  let hw := serialPrint (Tok.chr ',') hw
  let hw := serialPrint (Tok.flt (f1.get 2) 4) hw
  let hw := serialPrint (Tok.chr ',') hw
  let hw := serialPrint (Tok.flt (f2.get 0) 4) hw
  let hw := serialPrint (Tok.chr ',') hw
  let hw := serialPrint (Tok.flt (f2.get 1) 4) hw
  let hw := serialPrint (Tok.chr ',') hw
  let hw := serialPrint (Tok.flt (f2.get 2) 4) hw
  serialPrint Tok.ln hw

/-- Source: `loop` (lines 110-144); `now` is the value `millis()` returned. -/
def loop (now : Nat) (s : State) (hw : Hw) : State × Hw :=
  if elapsed now s.lastSample < sampleInterval then (s, hw)
  else
    let s := { s with lastSample := now }
    let r1 := readAccel X_PIN_1 Y_PIN_1 Z_PIN_1 hw
    let r2 := readAccel X_PIN_2 Y_PIN_2 Z_PIN_2 r1.2
    let accel1 := subOffset r1.1 s.offset1
    let accel2 := subOffset r2.1 s.offset2
    let s := { s with filt1 := lowPass accel1 s.filt1 LPF_ALPHA }
    let s := { s with filt2 := lowPass accel2 s.filt2 LPF_ALPHA }
    (s, printRecord now s.filt1 s.filt2 r2.2)

/-! ## Specification-side vocabulary -/

/-- The triples read by `n` successive passes of the body of the calibration loop. -/
def calibSamples (xPin yPin zPin : Nat) : Nat → Hw → List Vec3
  | 0, _ => []
  | n + 1, hw =>
    let r := readAccel xPin yPin zPin hw
    r.1 :: calibSamples xPin yPin zPin n (delay 5 r.2)

/-- The filter state after `k` applications of `lowPass` with the same input. -/
def lowPassIter (inp : Vec3) (alpha : ℚ) : Nat → Vec3 → Vec3
  | 0, st => st
  | k + 1, st => lowPassIter inp alpha k (lowPass inp st alpha)

/-- One CSV line `<timestamp_ms>,<ax1>,<ay1>,<az1>,<ax2>,<ay2>,<az2>` as serial items. -/
def recordToks (now : Nat) (f1 f2 : Vec3) : List Tok :=
  [Tok.uint now, Tok.chr ',', Tok.flt f1.x 4, Tok.chr ',', Tok.flt f1.y 4, Tok.chr ',',
   Tok.flt f1.z 4, Tok.chr ',', Tok.flt f2.x 4, Tok.chr ',', Tok.flt f2.y 4, Tok.chr ',',
   Tok.flt f2.z 4, Tok.ln]

/-- Successive invocations of `loop`, one per clock reading. -/
def run : List Nat → State → Hw → State × Hw
  | [], s, hw => (s, hw)
  | now :: rest, s, hw =>
    let r := loop now s hw
    run rest r.1 r.2

/-- The timestamps of the records found in a serial log. -/
def timestamps : List Tok → List Nat
  | [] => []
  | Tok.uint n :: ts => n :: timestamps ts
  | _ :: ts => timestamps ts

/-- The acceleration fields found in a serial log. -/
def accelFields : List Tok → List ℚ
  | [] => []
  | Tok.flt v _ :: ts => v :: accelFields ts
  | _ :: ts => accelFields ts

/-- A board whose converter yields a fixed raw value on each pin. -/
def constBoard (raw : Nat → Int) : Hw :=
  { adc := fun pin _ => raw pin, trace := [], serial := [],
    baud := 0, resolution := 0, attenuation := 0 }

/-- A sensor on pins `x y z` whose conversions are the constant triple `v` at every read. -/
def Steady (hw : Hw) (x y z : Nat) (v : Vec3) : Prop :=
  ∀ n, adcToAccel (hw.adc x n) = v.x ∧ adcToAccel (hw.adc y n) = v.y ∧
    adcToAccel (hw.adc z n) = v.z

/-- The converted triple `loop` reads from sensor 1 on board `hw`. -/
def reading1 (hw : Hw) : Vec3 :=
  (readAccel X_PIN_1 Y_PIN_1 Z_PIN_1 hw).1

/-- The converted triple `loop` reads from sensor 2 on board `hw` (after sensor 1). -/
def reading2 (hw : Hw) : Vec3 :=
  (readAccel X_PIN_2 Y_PIN_2 Z_PIN_2 (readAccel X_PIN_1 Y_PIN_1 Z_PIN_1 hw).2).1

/-- Two timestamps at least one sampling interval apart. -/
def Spaced (a b : Nat) : Prop :=
  a + sampleInterval ≤ b

/-- Filter state of a sensor at rest with constant conversion `m`, `k` emitting ticks after
startup: `(-0.4^k * m.x, -0.4^k * m.y, 1 - 0.4^k * m.z)`. -/
def restFilt (m : Vec3) (k : Nat) : Vec3 :=
  ⟨-((4 / 10) ^ k * m.x), -((4 / 10) ^ k * m.y), 1 - (4 / 10) ^ k * m.z⟩

/-- The CSV lines of two sensors at rest for the clock readings `ts`, the first line being
tick number `k + 1` after startup. -/
def restRecords (m1 m2 : Vec3) : Nat → List Nat → List Tok
  | _, [] => []
  | k, t :: ts =>
    recordToks t (restFilt m1 (k + 1)) (restFilt m2 (k + 1)) ++ restRecords m1 m2 (k + 1) ts

/-- Every clock reading of the list passes the timing gate, starting from `last`. -/
def AllEmit : Nat → List Nat → Prop
  | _, [] => True
  | last, t :: ts => sampleInterval ≤ elapsed t last ∧ AllEmit t ts

/-- A board with both sensors level: mid-scale on X and Y, raw 2867 (about 1 g) on Z. -/
def levelBoard : Hw :=
  constBoard fun pin => if pin = Z_PIN_1 ∨ pin = Z_PIN_2 then 2867 else 2048

/-- The board as `setup` leaves it just before the first `calibrate` call (lines 86-94). -/
def preCalibBoard (hw : Hw) : Hw :=
  serialPrintln "Calibrating sensors (keep still)..."
    (serialPrintln "M5Atom + KXR94-2050 Bar Controller"
      { hw with baud := 115200, resolution := 12, attenuation := ADC_11db })

/-- The events of `n` passes of the calibration loop: reads of X, Y, Z, then a 5 ms delay. -/
def calibTrace (x y z n : Nat) : List Event :=
  (List.replicate n [Event.read x, Event.read y, Event.read z, Event.delay 5]).flatten

/-- The pins of the channel reads of a trace, in order. -/
def readPins : List Event → List Nat
  | [] => []
  | Event.read pin :: es => pin :: readPins es
  | Event.delay _ :: es => readPins es

/-- The componentwise negation written by the filter initialisation of `setup`. -/
def Vec3.neg (v : Vec3) : Vec3 :=
  ⟨-v.x, -v.y, -v.z⟩

/-- The tick check at clock reading `now` writes to the serial port. -/
def Emits (now : Nat) (s : State) (hw : Hw) : Prop :=
  (loop now s hw).2.serial ≠ hw.serial

/-- The serial items that the tick checks at `nows` append to the log. -/
def emitted (nows : List Nat) (s : State) (hw : Hw) : List Tok :=
  (run nows s hw).2.serial.drop hw.serial.length

/-- The fields ax1, ay1, az1 of each record, from the acceleration fields of whole records. -/
def sensor1Of : List ℚ → List ℚ
  | a :: b :: c :: _ :: _ :: _ :: rest => a :: b :: c :: sensor1Of rest
  | _ => []

/-- The fields ax2, ay2, az2 of each record, from the acceleration fields of whole records. -/
def sensor2Of : List ℚ → List ℚ
  | _ :: _ :: _ :: a :: b :: c :: rest => a :: b :: c :: sensor2Of rest
  | _ => []

/-- Two boards at the same point in time whose converters agree on the pins `x y z`. -/
def SameSensor (hw hw1 : Hw) (x y z : Nat) : Prop :=
  hw.trace.length = hw1.trace.length ∧
  ∀ n, hw.adc x n = hw1.adc x n ∧ hw.adc y n = hw1.adc y n ∧ hw.adc z n = hw1.adc z n

/-- A board whose sensor 1 rests with a bias through startup (raw 2130 on X for the first 1600
events) and is tilted afterwards: raw 2867 on X, the conversion nearest above +1.0 g. -/
def tiltBoard : Hw :=
  { adc := fun pin n =>
      if pin = X_PIN_1 then (if n < 1600 then 2130 else 2867)
      else if pin = Z_PIN_1 ∨ pin = Z_PIN_2 then 2867 else 2048,
    trace := [], serial := [], baud := 0, resolution := 0, attenuation := 0 }

/-- From event index `n0` on, the X channel of sensor 1 converts to `v`. -/
def TiltedFrom (hw : Hw) (n0 : Nat) (v : ℚ) : Prop :=
  ∀ n, n0 ≤ n → adcToAccel (hw.adc X_PIN_1 n) = v

/-- The output field ax1 after startup on `hw` followed by the tick checks at `nows`. -/
def ax1After (hw : Hw) (nows : List Nat) : ℚ :=
  (run nows (setup State.init hw).1 (setup State.init hw).2).1.filt1.x

/-- The `n` clock readings that follow `t` at one sampling interval each (32-bit clock). -/
def ticksFrom : Nat → Nat → List Nat
  | _, 0 => []
  | t, n + 1 =>
    ((t + sampleInterval) % ULONG_MOD) :: ticksFrom ((t + sampleInterval) % ULONG_MOD) n

/-! ## Single-precision evaluation

The same source lines evaluated in IEEE 754 binary32: every constant and every arithmetic
operation is rounded to the nearest `float`, ties to even. A `float` is represented by the
rational number it denotes. -/

/-- The integer part of the base-2 logarithm of `n` (0 for `n < 2`), with fuel `fuel ≥ n`. -/
def floorLog2 : Nat → Nat → Nat
  | 0, _ => 0
  | fuel + 1, n => if n < 2 then 0 else floorLog2 fuel (n / 2) + 1

/-- The integer nearest to `n / d`, ties to the even one (`d > 0`). -/
def roundHalfEven (n d : Nat) : Nat :=
  if 2 * (n % d) < d then n / d
  else if d < 2 * (n % d) then n / d + 1
  else if (n / d) % 2 = 0 then n / d else n / d + 1

/-- The binary exponent `e` with `2 ^ e ≤ n / d < 2 ^ (e + 1)`, not below the smallest normal
exponent -126 (`n, d > 0`). -/
def f32Exponent (n d : Nat) : Int :=
  let e0 : Int := (floorLog2 n n : Int) - (floorLog2 d d : Int)
  let e : Int := if d * 2 ^ e0.toNat ≤ n * 2 ^ (-e0).toNat then e0 else e0 - 1
  max e (-126)

/-- The `float` nearest to `x`, ties to even: 24 significant bits, last place not below
`2 ^ (-149)`. Magnitudes from `2 ^ 128` on, which a `float` rounds to infinity, are outside
this model; no value computed here comes near them. -/
def roundF32 (x : ℚ) : ℚ :=
  let n := x.num.natAbs
  let d := x.den
  let p : Int := f32Exponent n d - 23
  let m : Nat := roundHalfEven (n * 2 ^ (-p).toNat) (d * 2 ^ p.toNat)
  if n = 0 then 0
  else if x.num < 0 then -(((m * 2 ^ p.toNat : Nat) : ℚ) / ((2 ^ (-p).toNat : Nat) : ℚ))
  else ((m * 2 ^ p.toNat : Nat) : ℚ) / ((2 ^ (-p).toNat : Nat) : ℚ)

/-- The `float` constant `SUPPLY_VOLTAGE` (line 28). -/
def SUPPLY_VOLTAGE_F32 : ℚ := roundF32 SUPPLY_VOLTAGE

/-- The `float` constant `SENSITIVITY` (line 29). -/
def SENSITIVITY_F32 : ℚ := roundF32 SENSITIVITY

/-- The `float` constant `ZERO_G_OFFSET` (line 30). -/
def ZERO_G_OFFSET_F32 : ℚ := roundF32 ZERO_G_OFFSET

/-- The `float` constant `LPF_ALPHA` (line 38). -/
def LPF_ALPHA_F32 : ℚ := roundF32 LPF_ALPHA

/-- Source: `adcToAccel` (lines 47-50) in `float` arithmetic: the two `int` operands are
converted to `float`, and product, quotient, difference and quotient are each rounded. -/
def adcToAccelF32 (adcValue : Int) : ℚ :=
  let voltage : ℚ :=
    roundF32 (roundF32 (roundF32 (adcValue : ℚ) * SUPPLY_VOLTAGE_F32) / roundF32 (ADC_MAX : ℚ))
  roundF32 (roundF32 (voltage - ZERO_G_OFFSET_F32) / SENSITIVITY_F32)

/-- Source: `readAccel` (lines 53-57) in `float` arithmetic. -/
def readAccelF32 (xPin yPin zPin : Nat) (hw : Hw) : Vec3 × Hw :=
  let rx := analogRead xPin hw
  let ry := analogRead yPin rx.2
  let rz := analogRead zPin ry.2
  (⟨adcToAccelF32 rx.1, adcToAccelF32 ry.1, adcToAccelF32 rz.1⟩, rz.2)

/-- The statements `accel[k] -= offset[k]` (lines 122-128) in `float` arithmetic. -/
def subOffsetF32 (accel offset : Vec3) : Vec3 :=
  ⟨roundF32 (accel.x - offset.x), roundF32 (accel.y - offset.y), roundF32 (accel.z - offset.z)⟩

/-- The `for` loop of `lowPass` in `float` arithmetic: `1 - alpha`, the two products and the
sum are each rounded (no product is fused with the sum). -/
def lowPassLoopF32 (inp : Vec3) (alpha : ℚ) : Nat → Nat → Vec3 → Vec3
  | 0, _, out => out
  | n + 1, i, out =>
    lowPassLoopF32 inp alpha n (i + 1)
      (out.set i (roundF32 (roundF32 (alpha * inp.get i) +
        roundF32 (roundF32 (1 - alpha) * out.get i))))

/-- Source: `lowPass` (lines 79-83) in `float` arithmetic. -/
def lowPassF32 (inp out : Vec3) (alpha : ℚ) : Vec3 :=
  lowPassLoopF32 inp alpha 3 0 out

/-- Source: `loop` (lines 110-144) in `float` arithmetic. -/
def loopF32 (now : Nat) (s : State) (hw : Hw) : State × Hw :=
  if elapsed now s.lastSample < sampleInterval then (s, hw)
  else
    let s := { s with lastSample := now }
    let r1 := readAccelF32 X_PIN_1 Y_PIN_1 Z_PIN_1 hw
    let r2 := readAccelF32 X_PIN_2 Y_PIN_2 Z_PIN_2 r1.2
    let accel1 := subOffsetF32 r1.1 s.offset1
    let accel2 := subOffsetF32 r2.1 s.offset2
    let s := { s with filt1 := lowPassF32 accel1 s.filt1 LPF_ALPHA_F32 }
    let s := { s with filt2 := lowPassF32 accel2 s.filt2 LPF_ALPHA_F32 }
    (s, printRecord now s.filt1 s.filt2 r2.2)

theorem adcToAccel_eq (raw : Int) : adcToAccel raw = (raw : ℚ) / 819 - 5 / 2 := by
  simp only [adcToAccel, SUPPLY_VOLTAGE, ADC_MAX, ZERO_G_OFFSET, SENSITIVITY]
  push_cast
  ring

theorem lowPass_eq (inp out : Vec3) (alpha : ℚ) :
    lowPass inp out alpha =
      ⟨alpha * inp.x + (1 - alpha) * out.x, alpha * inp.y + (1 - alpha) * out.y,
       alpha * inp.z + (1 - alpha) * out.z⟩ := rfl

@[simp] theorem readAccel_adc (x y z : Nat) (hw : Hw) : (readAccel x y z hw).2.adc = hw.adc := rfl

@[simp] theorem readAccel_serial (x y z : Nat) (hw : Hw) :
    (readAccel x y z hw).2.serial = hw.serial := rfl

@[simp] theorem delay_adc (ms : Nat) (hw : Hw) : (delay ms hw).adc = hw.adc := rfl

@[simp] theorem delay_serial (ms : Nat) (hw : Hw) : (delay ms hw).serial = hw.serial := rfl

theorem readAccel_val (x y z : Nat) (hw : Hw) :
    (readAccel x y z hw).1 =
      ⟨adcToAccel (hw.adc x hw.trace.length), adcToAccel (hw.adc y (hw.trace.length + 1)),
       adcToAccel (hw.adc z (hw.trace.length + 2))⟩ := by
  simp [readAccel, analogRead]

theorem calibrateLoop_sum (x y z : Nat) (n : Nat) (sum : Vec3) (hw : Hw) :
    (calibrateLoop x y z n sum hw).1 =
      ⟨sum.x + ((calibSamples x y z n hw).map Vec3.x).sum,
       sum.y + ((calibSamples x y z n hw).map Vec3.y).sum,
       sum.z + ((calibSamples x y z n hw).map Vec3.z).sum⟩ := by
  induction n generalizing sum hw with
  | zero => simp [calibrateLoop, calibSamples]
  | succ n ih =>
    simp only [calibrateLoop, calibSamples, ih, List.map_cons, List.sum_cons]
    simp [add_assoc]

theorem calibrateLoop_adc (x y z : Nat) (n : Nat) (sum : Vec3) (hw : Hw) :
    (calibrateLoop x y z n sum hw).2.adc = hw.adc := by
  induction n generalizing sum hw with
  | zero => rfl
  | succ n ih => simp [calibrateLoop, ih]

theorem calibrateLoop_serial (x y z : Nat) (n : Nat) (sum : Vec3) (hw : Hw) :
    (calibrateLoop x y z n sum hw).2.serial = hw.serial := by
  induction n generalizing sum hw with
  | zero => rfl
  | succ n ih => simp [calibrateLoop, ih]

theorem calibSamples_length (x y z : Nat) (n : Nat) (hw : Hw) :
    (calibSamples x y z n hw).length = n := by
  induction n generalizing hw with
  | zero => rfl
  | succ n ih => simp [calibSamples, ih]

theorem calibrate_mean (x y z : Nat) (hw : Hw) :
    (calibrate x y z hw).1 =
      ⟨((calibSamples x y z 200 hw).map Vec3.x).sum / 200,
       ((calibSamples x y z 200 hw).map Vec3.y).sum / 200,
       ((calibSamples x y z 200 hw).map Vec3.z).sum / 200 - 1⟩ := by
  simp [calibrate, calibrateLoop_sum]

theorem sum_map_const {l : List Vec3} {f : Vec3 → ℚ} {v : Vec3} (h : ∀ t ∈ l, t = v) :
    (l.map f).sum = l.length * f v := by
  induction l with
  | nil => simp
  | cons a l ih =>
    have ha : a = v := h a (List.mem_cons_self _ _)
    have hl : ∀ t ∈ l, t = v := fun t ht => h t (List.mem_cons_of_mem _ ht)
    simp only [List.map_cons, List.sum_cons, ih hl, List.length_cons, ha]
    push_cast
    ring

theorem calibrate_of_const (x y z : Nat) (hw : Hw) (v : Vec3)
    (h : ∀ t ∈ calibSamples x y z 200 hw, t = v) :
    (calibrate x y z hw).1 = ⟨v.x, v.y, v.z - 1⟩ := by
  rw [calibrate_mean, sum_map_const h, sum_map_const h, sum_map_const h, calibSamples_length]
  simp

theorem readAccel_steady {hw : Hw} {x y z : Nat} {v : Vec3} (h : Steady hw x y z v) :
    (readAccel x y z hw).1 = v := by
  rw [readAccel_val, (h _).1, (h _).2.1, (h _).2.2]

theorem calibSamples_steady {x y z : Nat} {v : Vec3} (n : Nat) (hw : Hw)
    (h : Steady hw x y z v) : ∀ t ∈ calibSamples x y z n hw, t = v := by
  induction n generalizing hw with
  | zero => simp [calibSamples]
  | succ n ih =>
    intro t ht
    simp only [calibSamples, List.mem_cons] at ht
    rcases ht with ht | ht
    · rw [ht, readAccel_steady h]
    · exact ih _ (by simpa [Steady] using h) t ht

theorem constBoard_steady (raw : Nat → Int) (x y z : Nat) :
    Steady (constBoard raw) x y z ⟨adcToAccel (raw x), adcToAccel (raw y), adcToAccel (raw z)⟩ :=
  fun _ => ⟨rfl, rfl, rfl⟩

theorem lowPassIter_sub (inp : Vec3) (alpha : ℚ) (k : Nat) (st : Vec3) :
    (lowPassIter inp alpha k st).x - inp.x = (1 - alpha) ^ k * (st.x - inp.x) ∧
    (lowPassIter inp alpha k st).y - inp.y = (1 - alpha) ^ k * (st.y - inp.y) ∧
    (lowPassIter inp alpha k st).z - inp.z = (1 - alpha) ^ k * (st.z - inp.z) := by
  induction k generalizing st with
  | zero => simp [lowPassIter]
  | succ k ih =>
    obtain ⟨hx, hy, hz⟩ := ih (lowPass inp st alpha)
    simp only [lowPassIter]
    rw [hx, hy, hz]
    simp only [lowPass_eq, pow_succ]
    refine ⟨by ring, by ring, by ring⟩

theorem pow_small (r : ℚ) (h0 : 0 ≤ r) (h1 : r < 1) (c ε : ℚ) (hε : 0 < ε) :
    ∃ K : Nat, ∀ k, K ≤ k → r ^ k * |c| < ε := by
  have hc : 0 < |c| + 1 := by positivity
  obtain ⟨K, hK⟩ := exists_pow_lt_of_lt_one (div_pos hε hc) h1
  refine ⟨K, fun k hk => ?_⟩
  have h2 : r ^ k ≤ r ^ K := pow_le_pow_of_le_one h0 h1.le hk
  have h3 : r ^ K * (|c| + 1) < ε := (lt_div_iff₀ hc).mp hK
  have h4 : r ^ k * |c| ≤ r ^ K * (|c| + 1) :=
    mul_le_mul h2 (by linarith) (abs_nonneg c) (pow_nonneg h0 K)
  linarith

/-! ## Conversion -/

/-- C1: with the stated constants, `adcToAccel raw = (raw * 3.3 / 4095 - 1.65) / 0.66`, and the
conversion is within 0.01 of -2.5 at raw 0, within 0.01 of +2.5 at raw 4095, and within 0.01 of
0 at both roundings 2047 and 2048 of mid-scale. -/
theorem adcToAccel_endpoints :
    (∀ raw : Int, adcToAccel raw = ((raw : ℚ) * (33 / 10) / 4095 - 165 / 100) / (66 / 100)) ∧
    |adcToAccel 0 - (-5 / 2)| ≤ 1 / 100 ∧
    |adcToAccel 4095 - 5 / 2| ≤ 1 / 100 ∧
    |adcToAccel 2047 - 0| ≤ 1 / 100 ∧
    |adcToAccel 2048 - 0| ≤ 1 / 100 := by
  refine ⟨fun raw => ?_, ?_, ?_, ?_, ?_⟩
  · simp [adcToAccel, SUPPLY_VOLTAGE, ADC_MAX, ZERO_G_OFFSET, SENSITIVITY]
  all_goals
    rw [adcToAccel_eq, abs_le]
    norm_num

/-! ## Calibration -/

/-- C2: the offset computed by `calibrate` is, per axis, the sum of the 200 triples read
divided by 200, with 1 subtracted on the Z axis, whatever the 200 triples are. -/
theorem calibrate_is_mean (xPin yPin zPin : Nat) (hw : Hw) :
    (calibSamples xPin yPin zPin 200 hw).length = 200 ∧
    (calibrate xPin yPin zPin hw).1.x =
      ((calibSamples xPin yPin zPin 200 hw).map Vec3.x).sum / 200 ∧
    (calibrate xPin yPin zPin hw).1.y =
      ((calibSamples xPin yPin zPin 200 hw).map Vec3.y).sum / 200 ∧
    (calibrate xPin yPin zPin hw).1.z =
      ((calibSamples xPin yPin zPin 200 hw).map Vec3.z).sum / 200 - 1 := by
  rw [calibrate_mean]
  exact ⟨calibSamples_length _ _ _ _ _, rfl, rfl, rfl⟩

/-- C3: if all 200 calibration samples are the same triple `(a, b, c)` then `calibrate`
yields the offset `(a, b, c - 1)`. -/
theorem calibrate_constant (xPin yPin zPin : Nat) (hw : Hw) (a b c : ℚ)
    (h : ∀ t ∈ calibSamples xPin yPin zPin 200 hw, t = ⟨a, b, c⟩) :
    (calibrate xPin yPin zPin hw).1 = ⟨a, b, c - 1⟩ :=
  calibrate_of_const xPin yPin zPin hw ⟨a, b, c⟩ h

/-- Witness for C3: raw readings 2064, 2039, 2891 (the nearest to 0.02, -0.01, 1.03 g). -/
theorem calibrate_constant_witness :
    (∀ t ∈ calibSamples 32 33 25 200
        (constBoard fun pin => if pin = 32 then 2064 else if pin = 33 then 2039 else 2891),
      t = ⟨adcToAccel 2064, adcToAccel 2039, adcToAccel 2891⟩) ∧
    (calibrate 32 33 25
        (constBoard fun pin => if pin = 32 then 2064 else if pin = 33 then 2039 else 2891)).1 =
      ⟨adcToAccel 2064, adcToAccel 2039, adcToAccel 2891 - 1⟩ :=
  ⟨calibSamples_steady 200 _ (constBoard_steady _ 32 33 25),
   calibrate_constant 32 33 25 _ _ _ _
     (calibSamples_steady 200 _ (constBoard_steady _ 32 33 25))⟩

/-! ## Low-pass filter -/

/-- C4: after `k` applications of `lowPass` with the constant input `I`, on each axis
`state_k - I = (1 - alpha) ^ k * (S0 - I)`; for `0 ≤ alpha ≤ 1` the absolute error is
`(1 - alpha) ^ k * |S0 - I|`; for `alpha = LPF_ALPHA` one application multiplies the error by
`0.4` and the error tends to 0. -/
theorem lowPass_step_response (alpha : ℚ) (I S0 : Vec3) (k : Nat) :
    ((lowPassIter I alpha k S0).x - I.x = (1 - alpha) ^ k * (S0.x - I.x) ∧
     (lowPassIter I alpha k S0).y - I.y = (1 - alpha) ^ k * (S0.y - I.y) ∧
     (lowPassIter I alpha k S0).z - I.z = (1 - alpha) ^ k * (S0.z - I.z)) ∧
    (0 ≤ alpha → alpha ≤ 1 →
      |(lowPassIter I alpha k S0).x - I.x| = (1 - alpha) ^ k * |S0.x - I.x| ∧
      |(lowPassIter I alpha k S0).y - I.y| = (1 - alpha) ^ k * |S0.y - I.y| ∧
      |(lowPassIter I alpha k S0).z - I.z| = (1 - alpha) ^ k * |S0.z - I.z|) ∧
    ((lowPass I S0 LPF_ALPHA).x - I.x = 4 / 10 * (S0.x - I.x) ∧
     (lowPass I S0 LPF_ALPHA).y - I.y = 4 / 10 * (S0.y - I.y) ∧
     (lowPass I S0 LPF_ALPHA).z - I.z = 4 / 10 * (S0.z - I.z)) ∧
    (∀ ε : ℚ, 0 < ε → ∃ K : Nat, ∀ n, K ≤ n →
      |(lowPassIter I LPF_ALPHA n S0).x - I.x| < ε ∧
      |(lowPassIter I LPF_ALPHA n S0).y - I.y| < ε ∧
      |(lowPassIter I LPF_ALPHA n S0).z - I.z| < ε) := by
  obtain ⟨hx, hy, hz⟩ := lowPassIter_sub I alpha k S0
  refine ⟨⟨hx, hy, hz⟩, fun h0 h1 => ?_, ?_, fun ε hε => ?_⟩
  · have hp : 0 ≤ (1 - alpha) ^ k := pow_nonneg (by linarith) k
    rw [hx, hy, hz, abs_mul, abs_mul, abs_mul, abs_of_nonneg hp]
    exact ⟨rfl, rfl, rfl⟩
  · simp only [lowPass_eq, LPF_ALPHA]
    refine ⟨by ring, by ring, by ring⟩
  · have hr0 : (0 : ℚ) ≤ 1 - LPF_ALPHA := by norm_num [LPF_ALPHA]
    have hr1 : 1 - LPF_ALPHA < 1 := by norm_num [LPF_ALPHA]
    obtain ⟨Kx, hKx⟩ := pow_small _ hr0 hr1 (S0.x - I.x) ε hε
    obtain ⟨Ky, hKy⟩ := pow_small _ hr0 hr1 (S0.y - I.y) ε hε
    obtain ⟨Kz, hKz⟩ := pow_small _ hr0 hr1 (S0.z - I.z) ε hε
    refine ⟨max Kx (max Ky Kz), fun n hn => ?_⟩
    obtain ⟨ex, ey, ez⟩ := lowPassIter_sub I LPF_ALPHA n S0
    have hp : 0 ≤ (1 - LPF_ALPHA) ^ n := pow_nonneg hr0 n
    rw [ex, ey, ez, abs_mul, abs_mul, abs_mul, abs_of_nonneg hp]
    exact ⟨hKx n (le_trans (le_max_left _ _) hn),
      hKy n (le_trans (le_trans (le_max_left _ _) (le_max_right _ _)) hn),
      hKz n (le_trans (le_trans (le_max_right _ _) (le_max_right _ _)) hn)⟩

/-- Witness for C4 at `alpha = 6/10`, input `(0, 0, 1)`, initial state `(1, -1, 0)`, `k = 2`. -/
theorem lowPass_step_response_witness :
    (0 : ℚ) ≤ 6 / 10 ∧ (6 / 10 : ℚ) ≤ 1 ∧
    |(lowPassIter ⟨0, 0, 1⟩ (6 / 10) 2 ⟨1, -1, 0⟩).x - (⟨0, 0, 1⟩ : Vec3).x| =
      (1 - 6 / 10) ^ 2 * |(⟨1, -1, 0⟩ : Vec3).x - (⟨0, 0, 1⟩ : Vec3).x| :=
  ⟨by norm_num, by norm_num,
   ((lowPass_step_response (6 / 10) ⟨0, 0, 1⟩ ⟨1, -1, 0⟩ 2).2.1
      (by norm_num) (by norm_num)).1⟩

/-! ## Sampler / emitter loop -/

theorem loop_idle {now : Nat} {s : State} (hw : Hw)
    (h : elapsed now s.lastSample < sampleInterval) : loop now s hw = (s, hw) := by
  simp [loop, h]

theorem printRecord_serial (now : Nat) (f1 f2 : Vec3) (hw : Hw) :
    (printRecord now f1 f2 hw).serial = hw.serial ++ recordToks now f1 f2 := by
  simp [printRecord, serialPrint, recordToks, Vec3.get]

@[simp] theorem printRecord_adc (now : Nat) (f1 f2 : Vec3) (hw : Hw) :
    (printRecord now f1 f2 hw).adc = hw.adc := by
  simp [printRecord, serialPrint]

@[simp] theorem printRecord_trace (now : Nat) (f1 f2 : Vec3) (hw : Hw) :
    (printRecord now f1 f2 hw).trace = hw.trace := by
  simp [printRecord, serialPrint]

theorem loop_emit_state {now : Nat} {s : State} (hw : Hw)
    (h : sampleInterval ≤ elapsed now s.lastSample) :
    (loop now s hw).1 =
      { offset1 := s.offset1, offset2 := s.offset2,
        filt1 := lowPass (subOffset (reading1 hw) s.offset1) s.filt1 LPF_ALPHA,
        filt2 := lowPass (subOffset (reading2 hw) s.offset2) s.filt2 LPF_ALPHA,
        lastSample := now } := by
  simp [loop, Nat.not_lt.mpr h, reading1, reading2]

theorem loop_emit_serial {now : Nat} {s : State} (hw : Hw)
    (h : sampleInterval ≤ elapsed now s.lastSample) :
    (loop now s hw).2.serial =
      hw.serial ++ recordToks now (loop now s hw).1.filt1 (loop now s hw).1.filt2 := by
  simp [loop, Nat.not_lt.mpr h, printRecord_serial]

theorem loop_adc (now : Nat) (s : State) (hw : Hw) : (loop now s hw).2.adc = hw.adc := by
  unfold loop
  split <;> simp

theorem timestamps_append (a b : List Tok) :
    timestamps (a ++ b) = timestamps a ++ timestamps b := by
  induction a with
  | nil => rfl
  | cons t a ih => cases t <;> simp [timestamps, ih]

theorem timestamps_record (now : Nat) (f1 f2 : Vec3) :
    timestamps (recordToks now f1 f2) = [now] := rfl

theorem elapsed_of_le {a b : Nat} (hab : a ≤ b) (hb : b < ULONG_MOD) : elapsed b a = b - a := by
  simp only [elapsed, ULONG_MOD] at *
  omega

theorem run_spaced (nows : List Nat) (s : State) (hw : Hw)
    (hsorted : nows.Pairwise (· ≤ ·)) (hbound : ∀ t ∈ nows, t < ULONG_MOD)
    (hlast : ∀ t ∈ nows, s.lastSample ≤ t)
    (hts : (timestamps hw.serial).Pairwise Spaced)
    (hle : ∀ t ∈ timestamps hw.serial, t ≤ s.lastSample) :
    (timestamps (run nows s hw).2.serial).Pairwise Spaced := by
  induction nows generalizing s hw with
  | nil => simpa [run] using hts
  | cons now rest ih =>
    have hnow : s.lastSample ≤ now := hlast now (List.mem_cons_self _ _)
    have hM : now < ULONG_MOD := hbound now (List.mem_cons_self _ _)
    have hs := List.pairwise_cons.mp hsorted
    have hb : ∀ t ∈ rest, t < ULONG_MOD := fun t ht => hbound t (List.mem_cons_of_mem _ ht)
    simp only [run]
    by_cases h : elapsed now s.lastSample < sampleInterval
    · rw [loop_idle hw h]
      exact ih s hw hs.2 hb (fun t ht => hlast t (List.mem_cons_of_mem _ ht)) hts hle
    · have h10 : sampleInterval ≤ elapsed now s.lastSample := Nat.not_lt.mp h
      have hgap : s.lastSample + sampleInterval ≤ now := by
        rw [elapsed_of_le hnow hM] at h10
        omega
      have hser : timestamps (loop now s hw).2.serial = timestamps hw.serial ++ [now] := by
        rw [loop_emit_serial hw h10, timestamps_append, timestamps_record]
      refine ih _ _ hs.2 hb ?_ ?_ ?_
      · intro t ht
        rw [loop_emit_state hw h10]
        exact hs.1 t ht
      · rw [hser, List.pairwise_append]
        refine ⟨hts, List.pairwise_singleton _ _, fun a ha b hb => ?_⟩
        have := hle a ha
        simp only [List.mem_singleton] at hb
        simp only [Spaced]
        omega
      · intro t ht
        rw [hser, List.mem_append, List.mem_singleton] at ht
        rw [loop_emit_state hw h10]
        rcases ht with ht | ht
        · exact le_trans (hle t ht) hnow
        · exact le_of_eq ht

/-- C5 (amended): over exact arithmetic (the `float` operations taken without rounding), on a
tick whose elapsed time is at least the interval, each sensor's new filter state is
`0.6 * (reading - offset) + 0.4 * old` on every axis, and the tick appends to the serial log
exactly the timestamp `now` followed by the six updated filter values, sensor 1 first, in the
order x, y, z. -/
theorem loop_steady_tick (now : Nat) (s : State) (hw : Hw)
    (h : sampleInterval ≤ elapsed now s.lastSample) :
    (loop now s hw).1.filt1.x = 6 / 10 * ((reading1 hw).x - s.offset1.x) + 4 / 10 * s.filt1.x ∧
    (loop now s hw).1.filt1.y = 6 / 10 * ((reading1 hw).y - s.offset1.y) + 4 / 10 * s.filt1.y ∧
    (loop now s hw).1.filt1.z = 6 / 10 * ((reading1 hw).z - s.offset1.z) + 4 / 10 * s.filt1.z ∧
    (loop now s hw).1.filt2.x = 6 / 10 * ((reading2 hw).x - s.offset2.x) + 4 / 10 * s.filt2.x ∧
    (loop now s hw).1.filt2.y = 6 / 10 * ((reading2 hw).y - s.offset2.y) + 4 / 10 * s.filt2.y ∧
    (loop now s hw).1.filt2.z = 6 / 10 * ((reading2 hw).z - s.offset2.z) + 4 / 10 * s.filt2.z ∧
    (loop now s hw).2.serial = hw.serial ++
      [Tok.uint now, Tok.chr ',',
       Tok.flt (loop now s hw).1.filt1.x 4, Tok.chr ',',
       Tok.flt (loop now s hw).1.filt1.y 4, Tok.chr ',',
       Tok.flt (loop now s hw).1.filt1.z 4, Tok.chr ',',
       Tok.flt (loop now s hw).1.filt2.x 4, Tok.chr ',',
       Tok.flt (loop now s hw).1.filt2.y 4, Tok.chr ',',
       Tok.flt (loop now s hw).1.filt2.z 4, Tok.ln] := by
  refine ⟨?_, ?_, ?_, ?_, ?_, ?_, ?_⟩
  case refine_7 => rw [loop_emit_serial hw h]; rfl
  all_goals
    rw [loop_emit_state hw h]
    simp only [lowPass_eq, subOffset, LPF_ALPHA]
    ring

/-- Witness for C5: clock reading 35 on the initial globals, mid-scale raw readings. -/
theorem loop_steady_tick_witness :
    sampleInterval ≤ elapsed 35 State.init.lastSample ∧
    (loop 35 State.init (constBoard fun _ => 2048)).1.filt1.x =
      6 / 10 * ((reading1 (constBoard fun _ => 2048)).x - State.init.offset1.x) +
        4 / 10 * State.init.filt1.x :=
  ⟨by decide, (loop_steady_tick 35 State.init (constBoard fun _ => 2048) (by decide)).1⟩

/-- C6: for tick checks made at non-decreasing 32-bit clock readings, starting with
`lastSample = 0` and no record emitted yet, any two emitted timestamps are at least the
sampling interval (10 ms) apart. -/
theorem timing_gate (nows : List Nat) (s : State) (hw : Hw)
    (hsorted : nows.Pairwise (· ≤ ·)) (hbound : ∀ t ∈ nows, t < ULONG_MOD)
    (h0 : s.lastSample = 0) (hts : timestamps hw.serial = []) :
    (timestamps (run nows s hw).2.serial).Pairwise (fun a b => a + 10 ≤ b) :=
  run_spaced nows s hw hsorted hbound (by simp [h0]) (by simp [hts]) (by simp [hts])

/-- Witness for C6: checks at 0, 5, 10, 12, 25, 30, 35 ms from the initial globals. -/
theorem timing_gate_witness :
    [0, 5, 10, 12, 25, 30, 35].Pairwise (· ≤ ·) ∧
    (∀ t ∈ [0, 5, 10, 12, 25, 30, 35], t < ULONG_MOD) ∧
    State.init.lastSample = 0 ∧ timestamps (constBoard fun _ => 2048).serial = [] ∧
    (timestamps (run [0, 5, 10, 12, 25, 30, 35] State.init
      (constBoard fun _ => 2048)).2.serial).Pairwise (fun a b => a + 10 ≤ b) :=
  ⟨by decide, by decide, rfl, rfl,
   timing_gate [0, 5, 10, 12, 25, 30, 35] State.init (constBoard fun _ => 2048)
     (by decide) (by decide) rfl rfl⟩

/-! ## Startup and the rest scenario -/

theorem Steady.congr {hw hw1 : Hw} {x y z : Nat} {v : Vec3} (h : Steady hw x y z v)
    (e : hw1.adc = hw.adc) : Steady hw1 x y z v := by
  intro n
  rw [e]
  exact h n

@[simp] theorem calibrate_adc (x y z : Nat) (hw : Hw) : (calibrate x y z hw).2.adc = hw.adc := by
  simp [calibrate, calibrateLoop_adc]

@[simp] theorem calibrate_serial (x y z : Nat) (hw : Hw) :
    (calibrate x y z hw).2.serial = hw.serial := by
  simp [calibrate, calibrateLoop_serial]

theorem calibrate_steady {hw : Hw} {x y z : Nat} {v : Vec3} (h : Steady hw x y z v) :
    (calibrate x y z hw).1 = ⟨v.x, v.y, v.z - 1⟩ :=
  calibrate_of_const x y z hw v (calibSamples_steady 200 hw h)

theorem setup_adc (s : State) (hw : Hw) : (setup s hw).2.adc = hw.adc := by
  simp [setup, serialPrintln, serialPrint]

theorem setup_rest (s : State) {hw : Hw} {m1 m2 : Vec3}
    (h1 : Steady hw X_PIN_1 Y_PIN_1 Z_PIN_1 m1) (h2 : Steady hw X_PIN_2 Y_PIN_2 Z_PIN_2 m2) :
    (setup s hw).1 =
      { offset1 := ⟨m1.x, m1.y, m1.z - 1⟩, offset2 := ⟨m2.x, m2.y, m2.z - 1⟩,
        filt1 := restFilt m1 0, filt2 := restFilt m2 0, lastSample := s.lastSample } := by
  simp only [setup]
  rw [calibrate_steady (h1.congr (by simp [serialPrintln, serialPrint])),
    calibrate_steady (h2.congr (by simp [serialPrintln, serialPrint]))]
  simp [restFilt]

theorem lowPass_rest (m : Vec3) (k : Nat) :
    lowPass (subOffset m ⟨m.x, m.y, m.z - 1⟩) (restFilt m k) LPF_ALPHA = restFilt m (k + 1) := by
  simp only [lowPass_eq, subOffset, restFilt, LPF_ALPHA, pow_succ, Vec3.mk.injEq]
  refine ⟨by ring, by ring, by ring⟩

theorem reading1_steady {hw : Hw} {m : Vec3} (h : Steady hw X_PIN_1 Y_PIN_1 Z_PIN_1 m) :
    reading1 hw = m :=
  readAccel_steady h

theorem reading2_steady {hw : Hw} {m : Vec3} (h : Steady hw X_PIN_2 Y_PIN_2 Z_PIN_2 m) :
    reading2 hw = m :=
  readAccel_steady (h.congr (by simp))

theorem run_rest (m1 m2 : Vec3) (nows : List Nat) (k : Nat) (s : State) (hw : Hw)
    (h1 : Steady hw X_PIN_1 Y_PIN_1 Z_PIN_1 m1) (h2 : Steady hw X_PIN_2 Y_PIN_2 Z_PIN_2 m2)
    (ho1 : s.offset1 = ⟨m1.x, m1.y, m1.z - 1⟩) (ho2 : s.offset2 = ⟨m2.x, m2.y, m2.z - 1⟩)
    (hf1 : s.filt1 = restFilt m1 k) (hf2 : s.filt2 = restFilt m2 k)
    (hemit : AllEmit s.lastSample nows) :
    (run nows s hw).2.serial = hw.serial ++ restRecords m1 m2 k nows ∧
    (run nows s hw).1.filt1 = restFilt m1 (k + nows.length) ∧
    (run nows s hw).1.filt2 = restFilt m2 (k + nows.length) := by
  induction nows generalizing k s hw with
  | nil => simp [run, restRecords, hf1, hf2]
  | cons now rest ih =>
    obtain ⟨h10, hrest⟩ := hemit
    have hst := loop_emit_state hw h10
    rw [reading1_steady h1, reading2_steady h2, ho1, ho2, hf1, hf2, lowPass_rest,
      lowPass_rest] at hst
    have hser := loop_emit_serial hw h10
    rw [hst] at hser
    have := ih (k + 1) (loop now s hw).1 (loop now s hw).2
      (h1.congr (loop_adc _ _ _)) (h2.congr (loop_adc _ _ _))
      (by rw [hst]) (by rw [hst]) (by rw [hst]) (by rw [hst]) (by rw [hst]; exact hrest)
    simp only [run, this, hser, restRecords, List.length_cons, List.append_assoc]
    refine ⟨trivial, ?_, ?_⟩ <;> congr 1 <;> omega

theorem accelFields_append (a b : List Tok) :
    accelFields (a ++ b) = accelFields a ++ accelFields b := by
  induction a with
  | nil => rfl
  | cons t a ih => cases t <;> simp [accelFields, ih]

theorem levelBoard_steady1 :
    Steady levelBoard X_PIN_1 Y_PIN_1 Z_PIN_1
      ⟨adcToAccel 2048, adcToAccel 2048, adcToAccel 2867⟩ :=
  constBoard_steady _ X_PIN_1 Y_PIN_1 Z_PIN_1

theorem levelBoard_steady2 :
    Steady levelBoard X_PIN_2 Y_PIN_2 Z_PIN_2
      ⟨adcToAccel 2048, adcToAccel 2048, adcToAccel 2867⟩ :=
  constBoard_steady _ X_PIN_2 Y_PIN_2 Z_PIN_2

theorem restFilt_bounds (m : Vec3) (hx : |m.x| ≤ 1 / 20) (hy : |m.y| ≤ 1 / 20)
    (hz : |m.z - 1| ≤ 1 / 20) (k : Nat) (hk : 1 ≤ k) :
    |(restFilt m k).x| ≤ 1 / 20 ∧ |(restFilt m k).y| ≤ 1 / 20 ∧
    29 / 50 ≤ (restFilt m k).z ∧ (restFilt m k).z ≤ 1 := by
  have hp0 : (0 : ℚ) ≤ (4 / 10) ^ k := pow_nonneg (by norm_num) k
  have hp1 : ((4 : ℚ) / 10) ^ k ≤ 4 / 10 := by
    calc ((4 : ℚ) / 10) ^ k ≤ (4 / 10) ^ 1 :=
          pow_le_pow_of_le_one (by norm_num) (by norm_num) hk
      _ = 4 / 10 := pow_one _
  rw [abs_le] at hx hy hz
  simp only [restFilt, abs_neg, abs_mul, abs_of_nonneg hp0]
  have hax : |m.x| ≤ 1 / 20 := abs_le.mpr hx
  have hay : |m.y| ≤ 1 / 20 := abs_le.mpr hy
  have hzpos : 0 ≤ m.z := by linarith [hz.1]
  refine ⟨?_, ?_, ?_, ?_⟩
  · nlinarith [abs_nonneg m.x]
  · nlinarith [abs_nonneg m.y]
  · nlinarith [hz.2]
  · nlinarith

/-- C7 (as stated, refuted): with both sensors level and still (raw 2048 on X and Y, raw 2867
on Z, i.e. conversions within 0.001 of (0, 0, 1)) through startup and five emitting ticks at
10, 20, 30, 40, 50 ms, not all emitted acceleration fields are within 0.05 of 0: the first
record carries `az1 = 1 - 0.4 * (1639 / 1638)`, about 0.6. -/
theorem rest_scenario_not_all_zero :
    Steady levelBoard X_PIN_1 Y_PIN_1 Z_PIN_1 ⟨1 / 1638, 1 / 1638, 1639 / 1638⟩ ∧
    Steady levelBoard X_PIN_2 Y_PIN_2 Z_PIN_2 ⟨1 / 1638, 1 / 1638, 1639 / 1638⟩ ∧
    AllEmit State.init.lastSample [10, 20, 30, 40, 50] ∧
    ¬ ∀ v ∈ accelFields ((run [10, 20, 30, 40, 50] (setup State.init levelBoard).1
          (setup State.init levelBoard).2).2.serial.drop
          (setup State.init levelBoard).2.serial.length),
        |v| ≤ 1 / 20 := by
  have e1 : adcToAccel 2048 = 1 / 1638 := by rw [adcToAccel_eq]; norm_num
  have e2 : adcToAccel 2867 = 1639 / 1638 := by rw [adcToAccel_eq]; norm_num
  have h1 := levelBoard_steady1
  have h2 := levelBoard_steady2
  rw [e1, e2] at h1 h2
  have hemit : AllEmit State.init.lastSample [10, 20, 30, 40, 50] := by
    simp only [AllEmit, State.init]
    decide
  refine ⟨h1, h2, hemit, fun hall => ?_⟩
  have hs := setup_rest State.init h1 h2
  have hr := (run_rest _ _ [10, 20, 30, 40, 50] 0 (setup State.init levelBoard).1
    (setup State.init levelBoard).2 (h1.congr (setup_adc _ _)) (h2.congr (setup_adc _ _))
    (by rw [hs]) (by rw [hs]) (by rw [hs]) (by rw [hs]) (by rw [hs]; exact hemit)).1
  rw [hr, List.drop_left] at hall
  have hmem : (1 - (4 / 10 : ℚ) ^ 1 * (1639 / 1638)) ∈
      accelFields (restRecords ⟨1 / 1638, 1 / 1638, 1639 / 1638⟩
        ⟨1 / 1638, 1 / 1638, 1639 / 1638⟩ 0 [10, 20, 30, 40, 50]) := by
    simp [restRecords, recordToks, accelFields, restFilt]
  have := hall _ hmem
  rw [abs_le] at this
  norm_num at this

/-- C7 (amended): over exact arithmetic (the `float` operations taken without rounding), for
two sensors each returning, on every read of startup and of five subsequent emitting ticks,
a constant converted triple within 0.05 of (0, 0, 1) per axis, the five emitted records are
exactly the lines whose k-th entry carries, per sensor,
`(-0.4^k * mx, -0.4^k * my, 1 - 0.4^k * mz)`; hence ax1, ay1, ax2, ay2 are within 0.05 of 0
while az1 and az2 lie in `[0.58, 1]`. -/
theorem rest_scenario (hw : Hw) (m1 m2 : Vec3) (nows : List Nat)
    (h1 : Steady hw X_PIN_1 Y_PIN_1 Z_PIN_1 m1) (h2 : Steady hw X_PIN_2 Y_PIN_2 Z_PIN_2 m2)
    (hc1 : |m1.x| ≤ 1 / 20 ∧ |m1.y| ≤ 1 / 20 ∧ |m1.z - 1| ≤ 1 / 20)
    (hc2 : |m2.x| ≤ 1 / 20 ∧ |m2.y| ≤ 1 / 20 ∧ |m2.z - 1| ≤ 1 / 20)
    (hlen : nows.length = 5) (hemit : AllEmit State.init.lastSample nows) :
    (run nows (setup State.init hw).1 (setup State.init hw).2).2.serial =
      (setup State.init hw).2.serial ++ restRecords m1 m2 0 nows ∧
    (timestamps (restRecords m1 m2 0 nows) = nows) ∧
    ∀ k, 1 ≤ k → k ≤ 5 →
      (|(restFilt m1 k).x| ≤ 1 / 20 ∧ |(restFilt m1 k).y| ≤ 1 / 20 ∧
        29 / 50 ≤ (restFilt m1 k).z ∧ (restFilt m1 k).z ≤ 1) ∧
      (|(restFilt m2 k).x| ≤ 1 / 20 ∧ |(restFilt m2 k).y| ≤ 1 / 20 ∧
        29 / 50 ≤ (restFilt m2 k).z ∧ (restFilt m2 k).z ≤ 1) := by
  have hs := setup_rest State.init h1 h2
  have hr := (run_rest m1 m2 nows 0 (setup State.init hw).1
    (setup State.init hw).2 (h1.congr (setup_adc _ _)) (h2.congr (setup_adc _ _))
    (by rw [hs]) (by rw [hs]) (by rw [hs]) (by rw [hs]) (by rw [hs]; exact hemit)).1
  refine ⟨hr, ?_, fun k hk _ =>
    ⟨restFilt_bounds m1 hc1.1 hc1.2.1 hc1.2.2 k hk, restFilt_bounds m2 hc2.1 hc2.2.1 hc2.2.2 k hk⟩⟩
  match nows, hlen with
  | [t1, t2, t3, t4, t5], _ => rfl

/-- Witness for the amended C7: the level board, ticks at 10, 20, 30, 40, 50 ms. -/
theorem rest_scenario_witness :
    AllEmit State.init.lastSample [10, 20, 30, 40, 50] ∧
    (run [10, 20, 30, 40, 50] (setup State.init levelBoard).1
        (setup State.init levelBoard).2).2.serial =
      (setup State.init levelBoard).2.serial ++
        restRecords ⟨adcToAccel 2048, adcToAccel 2048, adcToAccel 2867⟩
          ⟨adcToAccel 2048, adcToAccel 2048, adcToAccel 2867⟩ 0 [10, 20, 30, 40, 50] :=
  have hc : |adcToAccel 2048| ≤ 1 / 20 ∧ |adcToAccel 2048| ≤ 1 / 20 ∧
      |adcToAccel 2867 - 1| ≤ 1 / 20 := by
    rw [adcToAccel_eq, adcToAccel_eq, abs_le, abs_le]
    norm_num
  have he : AllEmit State.init.lastSample [10, 20, 30, 40, 50] := by
    simp only [AllEmit, State.init]
    decide
  ⟨he, (rest_scenario levelBoard _ _ [10, 20, 30, 40, 50] levelBoard_steady1
    levelBoard_steady2 hc hc rfl he).1⟩

/-! ## Calibrated readings and the timing gate -/

/-- C8: if a sensor returns the triple `(a, b, c)` on all 200 calibration samples and again on
a later read, then the reading minus the calibration offset is exactly `(0, 0, 1)`; inside an
emitting `loop` pass this is the triple fed to the low-pass filter, for either sensor. -/
theorem calibrated_rest_reading (xPin yPin zPin : Nat) (hw hw1 : Hw) (a b c : ℚ)
    (hcal : ∀ t ∈ calibSamples xPin yPin zPin 200 hw, t = ⟨a, b, c⟩)
    (hread : (readAccel xPin yPin zPin hw1).1 = ⟨a, b, c⟩) :
    subOffset (readAccel xPin yPin zPin hw1).1 (calibrate xPin yPin zPin hw).1 = ⟨0, 0, 1⟩ ∧
    (∀ now s, sampleInterval ≤ elapsed now s.lastSample →
      xPin = X_PIN_1 → yPin = Y_PIN_1 → zPin = Z_PIN_1 →
      s.offset1 = (calibrate xPin yPin zPin hw).1 →
      (loop now s hw1).1.filt1 = lowPass ⟨0, 0, 1⟩ s.filt1 LPF_ALPHA) ∧
    (∀ now s (hw0 : Hw), sampleInterval ≤ elapsed now s.lastSample →
      xPin = X_PIN_2 → yPin = Y_PIN_2 → zPin = Z_PIN_2 →
      (readAccel X_PIN_1 Y_PIN_1 Z_PIN_1 hw0).2 = hw1 →
      s.offset2 = (calibrate xPin yPin zPin hw).1 →
      (loop now s hw0).1.filt2 = lowPass ⟨0, 0, 1⟩ s.filt2 LPF_ALPHA) := by
  have key : subOffset (readAccel xPin yPin zPin hw1).1 (calibrate xPin yPin zPin hw).1 =
      ⟨0, 0, 1⟩ := by
    rw [hread, calibrate_of_const xPin yPin zPin hw ⟨a, b, c⟩ hcal]
    simp [subOffset]
  refine ⟨key, ?_, ?_⟩
  · intro now s h hx hy hz ho
    subst hx hy hz
    rw [loop_emit_state hw1 h, ho, reading1, key]
  · intro now s hw0 h hx hy hz hb ho
    subst hx hy hz hb
    rw [loop_emit_state hw0 h, ho, reading2, key]

/-- Witness for C8: sensor 1 of the level board, calibrated and read on the same board. -/
theorem calibrated_rest_reading_witness :
    (∀ t ∈ calibSamples X_PIN_1 Y_PIN_1 Z_PIN_1 200 levelBoard,
      t = ⟨adcToAccel 2048, adcToAccel 2048, adcToAccel 2867⟩) ∧
    (readAccel X_PIN_1 Y_PIN_1 Z_PIN_1 levelBoard).1 =
      ⟨adcToAccel 2048, adcToAccel 2048, adcToAccel 2867⟩ ∧
    subOffset (readAccel X_PIN_1 Y_PIN_1 Z_PIN_1 levelBoard).1
      (calibrate X_PIN_1 Y_PIN_1 Z_PIN_1 levelBoard).1 = ⟨0, 0, 1⟩ ∧
    sampleInterval ≤ elapsed 10 0 ∧
    (loop 10 ⟨(calibrate X_PIN_1 Y_PIN_1 Z_PIN_1 levelBoard).1, ⟨0, 0, 0⟩, ⟨0, 0, 0⟩,
        ⟨0, 0, 0⟩, 0⟩ levelBoard).1.filt1 = lowPass ⟨0, 0, 1⟩ ⟨0, 0, 0⟩ LPF_ALPHA :=
  ⟨calibSamples_steady 200 _ levelBoard_steady1, readAccel_steady levelBoard_steady1,
   (calibrated_rest_reading X_PIN_1 Y_PIN_1 Z_PIN_1 levelBoard levelBoard _ _ _
      (calibSamples_steady 200 _ levelBoard_steady1) (readAccel_steady levelBoard_steady1)).1,
   by decide,
   (calibrated_rest_reading X_PIN_1 Y_PIN_1 Z_PIN_1 levelBoard levelBoard _ _ _
      (calibSamples_steady 200 _ levelBoard_steady1)
      (readAccel_steady levelBoard_steady1)).2.1 10
      ⟨(calibrate X_PIN_1 Y_PIN_1 Z_PIN_1 levelBoard).1, ⟨0, 0, 0⟩, ⟨0, 0, 0⟩, ⟨0, 0, 0⟩, 0⟩
      (by decide) rfl rfl rfl rfl⟩

/-- C9: a tick check whose elapsed time is below the interval changes nothing: globals
(`lastSample`, both filter states, both offsets) and board (no channel read, no serial
output) are returned as they were; a check whose elapsed time is at least the interval appends
exactly one record, i.e. one CSV line with a single line end, to the serial log. -/
theorem loop_below_interval_noop (now : Nat) (s : State) (hw : Hw) :
    (elapsed now s.lastSample < sampleInterval →
      loop now s hw = (s, hw) ∧ (loop now s hw).2.trace = hw.trace ∧
      (loop now s hw).2.serial = hw.serial) ∧
    (sampleInterval ≤ elapsed now s.lastSample →
      (loop now s hw).2.serial =
        hw.serial ++ recordToks now (loop now s hw).1.filt1 (loop now s hw).1.filt2 ∧
      (recordToks now (loop now s hw).1.filt1 (loop now s hw).1.filt2).count Tok.ln = 1 ∧
      timestamps (loop now s hw).2.serial = timestamps hw.serial ++ [now]) := by
  refine ⟨fun h => ?_, fun h => ?_⟩
  · rw [loop_idle hw h]
    exact ⟨rfl, rfl, rfl⟩
  · refine ⟨loop_emit_serial hw h, by simp [recordToks], ?_⟩
    rw [loop_emit_serial hw h, timestamps_append, timestamps_record]

/-- Witness for C9: from the initial globals, a check at 5 ms is idle, one at 10 ms emits. -/
theorem loop_below_interval_noop_witness :
    (elapsed 5 State.init.lastSample < sampleInterval ∧
      loop 5 State.init levelBoard = (State.init, levelBoard)) ∧
    (sampleInterval ≤ elapsed 10 State.init.lastSample ∧
      timestamps (loop 10 State.init levelBoard).2.serial =
        timestamps levelBoard.serial ++ [10]) :=
  ⟨⟨by decide, ((loop_below_interval_noop 5 State.init levelBoard).1 (by decide)).1⟩,
   ⟨by decide, ((loop_below_interval_noop 10 State.init levelBoard).2 (by decide)).2.2⟩⟩

/-- C10: whatever the elapsed time `e ≥ 10` since the last emitted sample, one tick check
appends exactly one record, stamped `now`, and sets `lastSample` to `now`; a following check
at any clock reading from `now` up to but excluding `now + 10` (also across the 32-bit
wrap) changes nothing. -/
theorem loop_no_catch_up (now : Nat) (s : State) (hw : Hw)
    (h : sampleInterval ≤ elapsed now s.lastSample) :
    (loop now s hw).1.lastSample = now ∧
    (loop now s hw).2.serial =
      hw.serial ++ recordToks now (loop now s hw).1.filt1 (loop now s hw).1.filt2 ∧
    timestamps (loop now s hw).2.serial = timestamps hw.serial ++ [now] ∧
    (∀ now1, now ≤ now1 → now1 < now + sampleInterval →
      loop now1 (loop now s hw).1 (loop now s hw).2 = loop now s hw) ∧
    (∀ d, d < sampleInterval →
      loop ((now + d) % ULONG_MOD) (loop now s hw).1 (loop now s hw).2 = loop now s hw) := by
  have hl : (loop now s hw).1.lastSample = now := by rw [loop_emit_state hw h]
  refine ⟨hl, loop_emit_serial hw h, ?_, fun now1 h1 h2 => ?_, fun d hd => ?_⟩
  · rw [loop_emit_serial hw h, timestamps_append, timestamps_record]
  · apply loop_idle
    rw [hl]
    simp only [elapsed, ULONG_MOD, sampleInterval] at *
    omega
  · apply loop_idle
    rw [hl]
    simp only [elapsed, ULONG_MOD, sampleInterval] at *
    omega

/-- Witness for C10: 35 ms after the last sample (three missed intervals) one record stamped
35 is emitted, and a check at 44 ms emits nothing. -/
theorem loop_no_catch_up_witness :
    sampleInterval ≤ elapsed 35 State.init.lastSample ∧
    (loop 35 State.init levelBoard).1.lastSample = 35 ∧
    timestamps (loop 35 State.init levelBoard).2.serial = timestamps levelBoard.serial ++ [35] ∧
    loop 44 (loop 35 State.init levelBoard).1 (loop 35 State.init levelBoard).2 =
      loop 35 State.init levelBoard :=
  ⟨by decide, (loop_no_catch_up 35 State.init levelBoard (by decide)).1,
   (loop_no_catch_up 35 State.init levelBoard (by decide)).2.2.1,
   (loop_no_catch_up 35 State.init levelBoard (by decide)).2.2.2.1 44 (by decide) (by decide)⟩

/-! ## Startup: filter initialisation, offsets, read order -/

theorem setup_state (s : State) (hw : Hw) :
    (setup s hw).1 =
      { offset1 := (calibrate X_PIN_1 Y_PIN_1 Z_PIN_1 (preCalibBoard hw)).1,
        offset2 := (calibrate X_PIN_2 Y_PIN_2 Z_PIN_2
          (calibrate X_PIN_1 Y_PIN_1 Z_PIN_1 (preCalibBoard hw)).2).1,
        filt1 := (calibrate X_PIN_1 Y_PIN_1 Z_PIN_1 (preCalibBoard hw)).1.neg,
        filt2 := (calibrate X_PIN_2 Y_PIN_2 Z_PIN_2
          (calibrate X_PIN_1 Y_PIN_1 Z_PIN_1 (preCalibBoard hw)).2).1.neg,
        lastSample := s.lastSample } := by
  simp only [setup, preCalibBoard, Vec3.neg]

theorem loop_offsets (now : Nat) (s : State) (hw : Hw) :
    (loop now s hw).1.offset1 = s.offset1 ∧ (loop now s hw).1.offset2 = s.offset2 := by
  unfold loop
  split <;> exact ⟨rfl, rfl⟩

theorem run_offsets (nows : List Nat) (s : State) (hw : Hw) :
    (run nows s hw).1.offset1 = s.offset1 ∧ (run nows s hw).1.offset2 = s.offset2 := by
  induction nows generalizing s hw with
  | nil => exact ⟨rfl, rfl⟩
  | cons now rest ih =>
    obtain ⟨h1, h2⟩ := ih (loop now s hw).1 (loop now s hw).2
    obtain ⟨e1, e2⟩ := loop_offsets now s hw
    exact ⟨by simp only [run, h1, e1], by simp only [run, h2, e2]⟩

theorem readAccel_trace (x y z : Nat) (hw : Hw) :
    (readAccel x y z hw).2.trace =
      hw.trace ++ [Event.read x, Event.read y, Event.read z] := by
  simp [readAccel, analogRead]

theorem calibTrace_succ (x y z n : Nat) :
    calibTrace x y z (n + 1) =
      [Event.read x, Event.read y, Event.read z, Event.delay 5] ++ calibTrace x y z n := by
  simp [calibTrace, List.replicate_succ]

theorem calibrateLoop_trace (x y z : Nat) (n : Nat) (sum : Vec3) (hw : Hw) :
    (calibrateLoop x y z n sum hw).2.trace = hw.trace ++ calibTrace x y z n := by
  induction n generalizing sum hw with
  | zero => simp [calibrateLoop, calibTrace]
  | succ n ih =>
    simp only [calibrateLoop, ih, calibTrace_succ, delay, readAccel_trace]
    simp

theorem calibrate_trace (x y z : Nat) (hw : Hw) :
    (calibrate x y z hw).2.trace = hw.trace ++ calibTrace x y z 200 := by
  simp [calibrate, calibrateLoop_trace]

theorem readPins_append (a b : List Event) : readPins (a ++ b) = readPins a ++ readPins b := by
  induction a with
  | nil => rfl
  | cons e a ih => cases e <;> simp [readPins, ih]

theorem readPins_calibTrace (x y z n : Nat) :
    readPins (calibTrace x y z n) = (List.replicate n [x, y, z]).flatten := by
  induction n with
  | zero => simp [calibTrace, readPins]
  | succ n ih =>
    rw [calibTrace_succ, readPins_append, ih, List.replicate_succ, List.flatten_cons]
    rfl

theorem readPins_calibTrace_length (x y z n : Nat) :
    (readPins (calibTrace x y z n)).length = 3 * n := by
  induction n with
  | zero => simp [calibTrace, readPins]
  | succ n ih =>
    rw [calibTrace_succ, readPins_append, List.length_append, ih]
    simp only [readPins, List.length_cons, List.length_nil]
    omega

theorem setup_trace (s : State) (hw : Hw) :
    (setup s hw).2.trace =
      hw.trace ++ calibTrace X_PIN_1 Y_PIN_1 Z_PIN_1 200 ++
        calibTrace X_PIN_2 Y_PIN_2 Z_PIN_2 200 := by
  simp [setup, serialPrintln, serialPrint, calibrate_trace]

/-- C11: when `setup` completes, each sensor's filter state is, axis by axis, the negation of
that sensor's calibration offset, the offset being the value `calibrate` returned for that
sensor's pins during `setup`. -/
theorem setup_filter_init (s : State) (hw : Hw) :
    ((setup s hw).1.filt1.x = -(setup s hw).1.offset1.x ∧
     (setup s hw).1.filt1.y = -(setup s hw).1.offset1.y ∧
     (setup s hw).1.filt1.z = -(setup s hw).1.offset1.z) ∧
    ((setup s hw).1.filt2.x = -(setup s hw).1.offset2.x ∧
     (setup s hw).1.filt2.y = -(setup s hw).1.offset2.y ∧
     (setup s hw).1.filt2.z = -(setup s hw).1.offset2.z) ∧
    (setup s hw).1.offset1 = (calibrate X_PIN_1 Y_PIN_1 Z_PIN_1 (preCalibBoard hw)).1 ∧
    (setup s hw).1.offset2 = (calibrate X_PIN_2 Y_PIN_2 Z_PIN_2
      (calibrate X_PIN_1 Y_PIN_1 Z_PIN_1 (preCalibBoard hw)).2).1 := by
  rw [setup_state]
  exact ⟨⟨rfl, rfl, rfl⟩, ⟨rfl, rfl, rfl⟩, rfl, rfl⟩

/-- C12: every tick check, emitting or not, leaves both calibration offsets unchanged; so
after any sequence of tick checks following `setup` the offsets are still the values `setup`
computed. -/
theorem offsets_immutable (now : Nat) (nows : List Nat) (s : State) (hw : Hw) :
    ((loop now s hw).1.offset1 = s.offset1 ∧ (loop now s hw).1.offset2 = s.offset2) ∧
    ((run nows s hw).1.offset1 = s.offset1 ∧ (run nows s hw).1.offset2 = s.offset2) ∧
    ((run nows (setup s hw).1 (setup s hw).2).1.offset1 = (setup s hw).1.offset1 ∧
     (run nows (setup s hw).1 (setup s hw).2).1.offset2 = (setup s hw).1.offset2) :=
  ⟨loop_offsets now s hw, run_offsets nows s hw, run_offsets nows _ _⟩

/-- C15: `readAccel` appends to the trace exactly the reads X, Y, Z in that order and stores
the conversion of the k-th value read in component k; `calibrate` appends exactly 200 groups
"read X, read Y, read Z, delay 5" (600 channel reads); `setup` appends the 200 groups of
sensor 1 and then the 200 groups of sensor 2, so the startup reads are 600 reads of the pins
of sensor 1 followed by 600 reads of the pins of sensor 2. -/
theorem startup_read_order (xPin yPin zPin : Nat) (s : State) (hw : Hw) :
    ((readAccel xPin yPin zPin hw).2.trace =
        hw.trace ++ [Event.read xPin, Event.read yPin, Event.read zPin] ∧
      (readAccel xPin yPin zPin hw).1.x = adcToAccel (analogRead xPin hw).1 ∧
      (readAccel xPin yPin zPin hw).1.y = adcToAccel (analogRead yPin (analogRead xPin hw).2).1 ∧
      (readAccel xPin yPin zPin hw).1.z =
        adcToAccel (analogRead zPin (analogRead yPin (analogRead xPin hw).2).2).1) ∧
    ((calibrate xPin yPin zPin hw).2.trace =
        hw.trace ++ (List.replicate 200
          [Event.read xPin, Event.read yPin, Event.read zPin, Event.delay 5]).flatten ∧
      readPins (calibTrace xPin yPin zPin 200) =
        (List.replicate 200 [xPin, yPin, zPin]).flatten ∧
      (readPins (calibTrace xPin yPin zPin 200)).length = 600) ∧
    ((setup s hw).2.trace =
        hw.trace ++ calibTrace X_PIN_1 Y_PIN_1 Z_PIN_1 200 ++
          calibTrace X_PIN_2 Y_PIN_2 Z_PIN_2 200 ∧
      readPins (setup s hw).2.trace =
        readPins hw.trace ++ (List.replicate 200 [X_PIN_1, Y_PIN_1, Z_PIN_1]).flatten ++
          (List.replicate 200 [X_PIN_2, Y_PIN_2, Z_PIN_2]).flatten) := by
  refine ⟨⟨readAccel_trace _ _ _ _, rfl, rfl, rfl⟩, ⟨calibrate_trace _ _ _ _, ?_, ?_⟩, ?_, ?_⟩
  · exact readPins_calibTrace _ _ _ _
  · rw [readPins_calibTrace_length]
  · exact setup_trace s hw
  · rw [setup_trace, readPins_append, readPins_append, readPins_calibTrace,
      readPins_calibTrace]

/-! ## Stationary closed form -/

theorem preCalibBoard_adc (hw : Hw) : (preCalibBoard hw).adc = hw.adc := by
  simp [preCalibBoard, serialPrintln, serialPrint]

theorem setup_offset1_steady (s : State) {hw : Hw} {m : Vec3}
    (h : Steady hw X_PIN_1 Y_PIN_1 Z_PIN_1 m) :
    (setup s hw).1.offset1 = ⟨m.x, m.y, m.z - 1⟩ ∧ (setup s hw).1.filt1 = restFilt m 0 := by
  rw [setup_state]
  simp only [calibrate_steady (h.congr (preCalibBoard_adc hw)), Vec3.neg, restFilt]
  simp

theorem setup_offset2_steady (s : State) {hw : Hw} {m : Vec3}
    (h : Steady hw X_PIN_2 Y_PIN_2 Z_PIN_2 m) :
    (setup s hw).1.offset2 = ⟨m.x, m.y, m.z - 1⟩ ∧ (setup s hw).1.filt2 = restFilt m 0 := by
  rw [setup_state]
  simp only [calibrate_steady (h.congr ((calibrate_adc _ _ _ _).trans (preCalibBoard_adc hw))),
    Vec3.neg, restFilt]
  simp

theorem loop_lastSample {now : Nat} {s : State} (hw : Hw)
    (h : sampleInterval ≤ elapsed now s.lastSample) : (loop now s hw).1.lastSample = now := by
  rw [loop_emit_state hw h]

theorem run_rest1 (m : Vec3) (nows : List Nat) (k : Nat) (s : State) (hw : Hw)
    (h1 : Steady hw X_PIN_1 Y_PIN_1 Z_PIN_1 m) (ho : s.offset1 = ⟨m.x, m.y, m.z - 1⟩)
    (hf : s.filt1 = restFilt m k) (hemit : AllEmit s.lastSample nows) :
    (run nows s hw).1.filt1 = restFilt m (k + nows.length) := by
  induction nows generalizing k s hw with
  | nil => simpa [run] using hf
  | cons now rest ih =>
    obtain ⟨h10, hrest⟩ := hemit
    have hst : (loop now s hw).1.filt1 = restFilt m (k + 1) := by
      rw [loop_emit_state hw h10, reading1_steady h1, ho, hf, lowPass_rest]
    have := ih (k + 1) (loop now s hw).1 (loop now s hw).2 (h1.congr (loop_adc _ _ _))
      (by rw [(loop_offsets now s hw).1, ho]) hst (by rw [loop_lastSample hw h10]; exact hrest)
    simp only [run, this, List.length_cons]
    congr 1
    omega

theorem run_rest2 (m : Vec3) (nows : List Nat) (k : Nat) (s : State) (hw : Hw)
    (h2 : Steady hw X_PIN_2 Y_PIN_2 Z_PIN_2 m) (ho : s.offset2 = ⟨m.x, m.y, m.z - 1⟩)
    (hf : s.filt2 = restFilt m k) (hemit : AllEmit s.lastSample nows) :
    (run nows s hw).1.filt2 = restFilt m (k + nows.length) := by
  induction nows generalizing k s hw with
  | nil => simpa [run] using hf
  | cons now rest ih =>
    obtain ⟨h10, hrest⟩ := hemit
    have hst : (loop now s hw).1.filt2 = restFilt m (k + 1) := by
      rw [loop_emit_state hw h10, reading2_steady h2, ho, hf, lowPass_rest]
    have := ih (k + 1) (loop now s hw).1 (loop now s hw).2 (h2.congr (loop_adc _ _ _))
      (by rw [(loop_offsets now s hw).2, ho]) hst (by rw [loop_lastSample hw h10]; exact hrest)
    simp only [run, this, List.length_cons]
    congr 1
    omega

theorem restFilt_tendsto (m : Vec3) (ε : ℚ) (hε : 0 < ε) :
    ∃ K : Nat, ∀ k, K ≤ k →
      |(restFilt m k).x| < ε ∧ |(restFilt m k).y| < ε ∧ |(restFilt m k).z - 1| < ε := by
  have hr0 : (0 : ℚ) ≤ 4 / 10 := by norm_num
  have hr1 : (4 / 10 : ℚ) < 1 := by norm_num
  obtain ⟨Kx, hKx⟩ := pow_small _ hr0 hr1 m.x ε hε
  obtain ⟨Ky, hKy⟩ := pow_small _ hr0 hr1 m.y ε hε
  obtain ⟨Kz, hKz⟩ := pow_small _ hr0 hr1 m.z ε hε
  refine ⟨max Kx (max Ky Kz), fun k hk => ?_⟩
  have hp : (0 : ℚ) ≤ (4 / 10) ^ k := pow_nonneg hr0 k
  have ez : (1 - (4 / 10 : ℚ) ^ k * m.z) - 1 = -((4 / 10) ^ k * m.z) := by ring
  simp only [restFilt, ez, abs_neg, abs_mul, abs_of_nonneg hp]
  exact ⟨hKx k (le_trans (le_max_left _ _) hk),
    hKy k (le_trans (le_trans (le_max_left _ _) (le_max_right _ _)) hk),
    hKz k (le_trans (le_trans (le_max_right _ _) (le_max_right _ _)) hk)⟩

/-- C16: if a sensor returns the same converted triple `(mx, my, mz)` on every read of
calibration and of every later emitting tick, then after `k` emitting ticks its filter state
is exactly `(-0.4^k * mx, -0.4^k * my, 1 - 0.4^k * mz)` (either sensor); X and Y tend to 0 and
Z tends to 1; and `(0, 0, 1)` is the fixed point of the tick update. -/
theorem stationary_closed_form (hw : Hw) (m : Vec3) (nows : List Nat)
    (hemit : AllEmit State.init.lastSample nows) :
    (Steady hw X_PIN_1 Y_PIN_1 Z_PIN_1 m →
      (run nows (setup State.init hw).1 (setup State.init hw).2).1.filt1 =
        ⟨-((4 / 10) ^ nows.length * m.x), -((4 / 10) ^ nows.length * m.y),
         1 - (4 / 10) ^ nows.length * m.z⟩) ∧
    (Steady hw X_PIN_2 Y_PIN_2 Z_PIN_2 m →
      (run nows (setup State.init hw).1 (setup State.init hw).2).1.filt2 =
        ⟨-((4 / 10) ^ nows.length * m.x), -((4 / 10) ^ nows.length * m.y),
         1 - (4 / 10) ^ nows.length * m.z⟩) ∧
    (∀ ε : ℚ, 0 < ε → ∃ K : Nat, ∀ k, K ≤ k →
      |-((4 / 10) ^ k * m.x) - 0| < ε ∧ |-((4 / 10) ^ k * m.y) - 0| < ε ∧
      |(1 - (4 / 10) ^ k * m.z) - 1| < ε) ∧
    (∀ now (s : State) (hw1 : Hw), sampleInterval ≤ elapsed now s.lastSample →
      (s.offset1 = ⟨m.x, m.y, m.z - 1⟩ → reading1 hw1 = m → s.filt1 = ⟨0, 0, 1⟩ →
        (loop now s hw1).1.filt1 = ⟨0, 0, 1⟩) ∧
      (s.offset2 = ⟨m.x, m.y, m.z - 1⟩ → reading2 hw1 = m → s.filt2 = ⟨0, 0, 1⟩ →
        (loop now s hw1).1.filt2 = ⟨0, 0, 1⟩)) := by
  refine ⟨fun h => ?_, fun h => ?_, fun ε hε => ?_, fun now s hw1 h10 => ⟨?_, ?_⟩⟩
  · have hs := setup_offset1_steady State.init h
    have := run_rest1 m nows 0 (setup State.init hw).1 (setup State.init hw).2
      (h.congr (setup_adc _ _)) hs.1 hs.2 (by rw [setup_state]; exact hemit)
    rw [this, Nat.zero_add]
    rfl
  · have hs := setup_offset2_steady State.init h
    have := run_rest2 m nows 0 (setup State.init hw).1 (setup State.init hw).2
      (h.congr (setup_adc _ _)) hs.1 hs.2 (by rw [setup_state]; exact hemit)
    rw [this, Nat.zero_add]
    rfl
  · obtain ⟨K, hK⟩ := restFilt_tendsto m ε hε
    refine ⟨K, fun k hk => ?_⟩
    simpa [restFilt] using hK k hk
  · intro ho hr hf
    rw [loop_emit_state hw1 h10, ho, hr, hf]
    simp only [lowPass_eq, subOffset, LPF_ALPHA, Vec3.mk.injEq]
    refine ⟨by ring, by ring, by ring⟩
  · intro ho hr hf
    rw [loop_emit_state hw1 h10, ho, hr, hf]
    simp only [lowPass_eq, subOffset, LPF_ALPHA, Vec3.mk.injEq]
    refine ⟨by ring, by ring, by ring⟩

/-- Witness for C16: sensor 1 of the level board after the ticks at 10, 20 and 30 ms. -/
theorem stationary_closed_form_witness :
    AllEmit State.init.lastSample [10, 20, 30] ∧
    Steady levelBoard X_PIN_1 Y_PIN_1 Z_PIN_1
      ⟨adcToAccel 2048, adcToAccel 2048, adcToAccel 2867⟩ ∧
    (run [10, 20, 30] (setup State.init levelBoard).1 (setup State.init levelBoard).2).1.filt1 =
      ⟨-((4 / 10) ^ 3 * adcToAccel 2048), -((4 / 10) ^ 3 * adcToAccel 2048),
       1 - (4 / 10) ^ 3 * adcToAccel 2867⟩ ∧
    (loop 10 ⟨⟨adcToAccel 2048, adcToAccel 2048, adcToAccel 2867 - 1⟩, ⟨0, 0, 0⟩, ⟨0, 0, 1⟩,
        ⟨0, 0, 0⟩, 0⟩ levelBoard).1.filt1 = ⟨0, 0, 1⟩ :=
  have he : AllEmit State.init.lastSample [10, 20, 30] := by
    simp only [AllEmit, State.init]
    decide
  ⟨he, levelBoard_steady1,
   (stationary_closed_form levelBoard _ [10, 20, 30] he).1 levelBoard_steady1,
   ((stationary_closed_form levelBoard ⟨adcToAccel 2048, adcToAccel 2048, adcToAccel 2867⟩
      [10, 20, 30] he).2.2.2 10
      ⟨⟨adcToAccel 2048, adcToAccel 2048, adcToAccel 2867 - 1⟩, ⟨0, 0, 0⟩, ⟨0, 0, 1⟩,
        ⟨0, 0, 0⟩, 0⟩ levelBoard (by decide)).1 rfl (reading1_steady levelBoard_steady1) rfl⟩

/-! ## Wrap-safe timing gate -/

theorem emits_iff (now : Nat) (s : State) (hw : Hw) :
    Emits now s hw ↔ sampleInterval ≤ elapsed now s.lastSample := by
  unfold Emits
  constructor
  · intro h
    by_contra hlt
    exact h (by rw [loop_idle hw (Nat.lt_of_not_le hlt)])
  · intro h heq
    have := congrArg List.length (loop_emit_serial hw h)
    rw [heq] at this
    simp [recordToks] at this

theorem elapsed_int (now last : Nat) (hn : now < ULONG_MOD) (hl : last < ULONG_MOD) :
    (elapsed now last : ℤ) = ((now : ℤ) - (last : ℤ)) % 2 ^ 32 := by
  simp only [elapsed, ULONG_MOD] at *
  omega

theorem elapsed_wrap (last d : Nat) (hl : last < ULONG_MOD) (hd : d < ULONG_MOD) :
    elapsed ((last + d) % ULONG_MOD) last = d := by
  simp only [elapsed, ULONG_MOD] at *
  omega

/-- C17: with `now` and `lastSample` 32-bit unsigned values, the tick check emits if and only
if `(now - lastSample) mod 2^32 ≥ 10`; hence if the true elapsed time `d` since the last
emitted sample is below `2^32`, the check at the (possibly wrapped) clock reading
`(lastSample + d) mod 2^32` emits iff `d ≥ 10`. -/
theorem wrap_safe_gate (now : Nat) (s : State) (hw : Hw)
    (hn : now < ULONG_MOD) (hl : s.lastSample < ULONG_MOD) :
    (Emits now s hw ↔ 10 ≤ ((now : ℤ) - (s.lastSample : ℤ)) % 2 ^ 32) ∧
    (¬ Emits now s hw → loop now s hw = (s, hw)) ∧
    (∀ d : Nat, d < ULONG_MOD →
      (Emits ((s.lastSample + d) % ULONG_MOD) s hw ↔ 10 ≤ d)) := by
  refine ⟨?_, fun h => ?_, fun d hd => ?_⟩
  · rw [emits_iff, ← elapsed_int now s.lastSample hn hl]
    simp [sampleInterval]
  · rw [emits_iff] at h
    exact loop_idle hw (Nat.lt_of_not_le h)
  · rw [emits_iff, elapsed_wrap s.lastSample d hl hd]
    rfl

/-- Witness for C17: last sample at `2^32 - 5`; the wrapped clock readings 3 (8 ms later) and
7 (12 ms later). -/
theorem wrap_safe_gate_witness :
    3 < ULONG_MOD ∧ (⟨⟨0, 0, 0⟩, ⟨0, 0, 0⟩, ⟨0, 0, 0⟩, ⟨0, 0, 0⟩, 4294967291⟩ : State).lastSample
      < ULONG_MOD ∧
    ¬ Emits ((4294967291 + 8) % ULONG_MOD)
      ⟨⟨0, 0, 0⟩, ⟨0, 0, 0⟩, ⟨0, 0, 0⟩, ⟨0, 0, 0⟩, 4294967291⟩ levelBoard ∧
    Emits ((4294967291 + 12) % ULONG_MOD)
      ⟨⟨0, 0, 0⟩, ⟨0, 0, 0⟩, ⟨0, 0, 0⟩, ⟨0, 0, 0⟩, 4294967291⟩ levelBoard :=
  ⟨by decide, by decide,
   fun h => absurd (((wrap_safe_gate 3 ⟨⟨0, 0, 0⟩, ⟨0, 0, 0⟩, ⟨0, 0, 0⟩, ⟨0, 0, 0⟩, 4294967291⟩
     levelBoard (by decide) (by decide)).2.2 8 (by decide)).mp h) (by decide),
   ((wrap_safe_gate 3 ⟨⟨0, 0, 0⟩, ⟨0, 0, 0⟩, ⟨0, 0, 0⟩, ⟨0, 0, 0⟩, 4294967291⟩
     levelBoard (by decide) (by decide)).2.2 12 (by decide)).mpr (by decide)⟩

/-! ## The filter stays between input and state -/

/-- C19: `adcToAccel` is strictly increasing in the raw value; for `0 ≤ raw ≤ 4095` its result
lies in `[-2.5, 2.5]`; the divisors `ADC_MAX`, `SENSITIVITY` and the sample count 200 are
nonzero, so each division is a true division (multiplying back recovers the dividend). -/
theorem adcToAccel_range_mono :
    StrictMono adcToAccel ∧
    (∀ raw : Int, 0 ≤ raw → raw ≤ 4095 → -5 / 2 ≤ adcToAccel raw ∧ adcToAccel raw ≤ 5 / 2) ∧
    ((ADC_MAX : ℚ) ≠ 0 ∧ SENSITIVITY ≠ 0 ∧ ((200 : Nat) : ℚ) ≠ 0) ∧
    (∀ raw : Int,
      (adcToAccel raw * SENSITIVITY + ZERO_G_OFFSET) * (ADC_MAX : ℚ) =
        (raw : ℚ) * SUPPLY_VOLTAGE) ∧
    (∀ (xPin yPin zPin : Nat) (hw : Hw),
      (calibrate xPin yPin zPin hw).1.x * 200 =
        ((calibSamples xPin yPin zPin 200 hw).map Vec3.x).sum ∧
      (calibrate xPin yPin zPin hw).1.y * 200 =
        ((calibSamples xPin yPin zPin 200 hw).map Vec3.y).sum ∧
      ((calibrate xPin yPin zPin hw).1.z + 1) * 200 =
        ((calibSamples xPin yPin zPin 200 hw).map Vec3.z).sum) := by
  refine ⟨fun a b hab => ?_, fun raw h0 h1 => ?_, ?_, fun raw => ?_, fun x y z hw => ?_⟩
  · rw [adcToAccel_eq, adcToAccel_eq]
    have : (a : ℚ) < (b : ℚ) := by exact_mod_cast hab
    linarith
  · rw [adcToAccel_eq]
    have h2 : (0 : ℚ) ≤ (raw : ℚ) := by exact_mod_cast h0
    have h3 : (raw : ℚ) ≤ 4095 := by exact_mod_cast h1
    constructor <;> linarith
  · refine ⟨?_, ?_, ?_⟩ <;> norm_num [ADC_MAX, SENSITIVITY]
  · simp only [adcToAccel, SUPPLY_VOLTAGE, ADC_MAX, ZERO_G_OFFSET, SENSITIVITY]
    push_cast
    ring
  · rw [calibrate_mean]
    refine ⟨?_, ?_, ?_⟩ <;> simp only <;> ring

/-- Witness for C19: the range bound at raw 1000. -/
theorem adcToAccel_range_mono_witness :
    (0 : Int) ≤ 1000 ∧ (1000 : Int) ≤ 4095 ∧
    -5 / 2 ≤ adcToAccel 1000 ∧ adcToAccel 1000 ≤ 5 / 2 :=
  ⟨by decide, by decide, adcToAccel_range_mono.2.1 1000 (by decide) (by decide)⟩

/-- C20: for every integer raw value (in particular `0 ≤ raw ≤ 4095`),
`adcToAccel (4095 - raw) = -adcToAccel raw`, and `ZERO_G_OFFSET` is exactly half of
`SUPPLY_VOLTAGE`. -/
theorem adcToAccel_antisymm (raw : Int) :
    adcToAccel (ADC_MAX - raw) = -adcToAccel raw ∧
    adcToAccel (4095 - raw) = -adcToAccel raw ∧
    ZERO_G_OFFSET = SUPPLY_VOLTAGE / 2 := by
  refine ⟨?_, ?_, by norm_num [ZERO_G_OFFSET, SUPPLY_VOLTAGE]⟩
  · rw [adcToAccel_eq, adcToAccel_eq, ADC_MAX]
    push_cast
    ring
  · rw [adcToAccel_eq, adcToAccel_eq]
    push_cast
    ring

/-! ## Sensor independence -/

theorem loop_trace_emit {now : Nat} {s : State} (hw : Hw)
    (h : sampleInterval ≤ elapsed now s.lastSample) :
    (loop now s hw).2.trace.length = hw.trace.length + 6 := by
  simp [loop, Nat.not_lt.mpr h, readAccel_trace]

theorem run_serial (nows : List Nat) (s : State) (hw : Hw) :
    (run nows s hw).2.serial = hw.serial ++ emitted nows s hw := by
  have key : ∀ (nows : List Nat) (s : State) (hw : Hw),
      ∃ l, (run nows s hw).2.serial = hw.serial ++ l := by
    intro nows
    induction nows with
    | nil => exact fun s hw => ⟨[], by simp [run]⟩
    | cons now rest ih =>
      intro s hw
      obtain ⟨l, hl⟩ := ih (loop now s hw).1 (loop now s hw).2
      by_cases h : elapsed now s.lastSample < sampleInterval
      · refine ⟨l, ?_⟩
        rw [loop_idle hw h] at hl
        simpa only [run, loop_idle hw h] using hl
      · refine ⟨recordToks now (loop now s hw).1.filt1 (loop now s hw).1.filt2 ++ l, ?_⟩
        simp only [run, hl, loop_emit_serial hw (Nat.not_lt.mp h), List.append_assoc]
  obtain ⟨l, hl⟩ := key nows s hw
  rw [emitted, hl, List.drop_left]

theorem emitted_nil (s : State) (hw : Hw) : emitted [] s hw = [] := by
  simp [emitted, run]

theorem emitted_cons (now : Nat) (rest : List Nat) (s : State) (hw : Hw) :
    emitted (now :: rest) s hw =
      emitted [now] s hw ++ emitted rest (loop now s hw).1 (loop now s hw).2 := by
  have h1 := run_serial [now] s hw
  have h2 := run_serial rest (loop now s hw).1 (loop now s hw).2
  simp only [run] at h1
  have h3 : (run (now :: rest) s hw).2.serial =
      hw.serial ++ (emitted [now] s hw ++ emitted rest (loop now s hw).1 (loop now s hw).2) := by
    simp only [run]
    rw [h2, h1, List.append_assoc]
  conv_lhs => rw [emitted, h3, List.drop_left]

theorem emitted_idle {now : Nat} {s : State} (hw : Hw)
    (h : elapsed now s.lastSample < sampleInterval) : emitted [now] s hw = [] := by
  simp [emitted, run, loop_idle hw h]

theorem emitted_emit {now : Nat} {s : State} (hw : Hw)
    (h : sampleInterval ≤ elapsed now s.lastSample) :
    emitted [now] s hw = recordToks now (loop now s hw).1.filt1 (loop now s hw).1.filt2 := by
  simp only [emitted, run]
  rw [loop_emit_serial hw h, List.drop_left]

theorem accelFields_record (now : Nat) (f1 f2 : Vec3) :
    accelFields (recordToks now f1 f2) = [f1.x, f1.y, f1.z, f2.x, f2.y, f2.z] := rfl

theorem sensor1Of_six (a b c d e f : ℚ) (l : List ℚ) :
    sensor1Of ([a, b, c, d, e, f] ++ l) = a :: b :: c :: sensor1Of l := by
  simp [sensor1Of]

theorem sensor2Of_six (a b c d e f : ℚ) (l : List ℚ) :
    sensor2Of ([a, b, c, d, e, f] ++ l) = d :: e :: f :: sensor2Of l := by
  simp [sensor2Of]

theorem reading1_same {hw hw1 : Hw} (h : SameSensor hw hw1 X_PIN_1 Y_PIN_1 Z_PIN_1) :
    reading1 hw = reading1 hw1 := by
  simp only [reading1, readAccel_val, h.1, (h.2 _).1, (h.2 _).2.1, (h.2 _).2.2]

theorem reading2_same {hw hw1 : Hw} (h : SameSensor hw hw1 X_PIN_2 Y_PIN_2 Z_PIN_2) :
    reading2 hw = reading2 hw1 := by
  simp only [reading2, readAccel_val, readAccel_adc, readAccel_trace, List.length_append, h.1,
    (h.2 _).1, (h.2 _).2.1, (h.2 _).2.2]

theorem sameSensor_loop {hw hw1 : Hw} {x y z : Nat} (h : SameSensor hw hw1 x y z)
    (now : Nat) {s s1 : State} (hl : s.lastSample = s1.lastSample) :
    SameSensor (loop now s hw).2 (loop now s1 hw1).2 x y z := by
  refine ⟨?_, fun n => ?_⟩
  · by_cases hi : elapsed now s.lastSample < sampleInterval
    · rw [loop_idle hw hi, loop_idle hw1 (hl ▸ hi)]
      exact h.1
    · rw [loop_trace_emit hw (Nat.not_lt.mp hi), loop_trace_emit hw1 (hl ▸ Nat.not_lt.mp hi), h.1]
  · rw [loop_adc, loop_adc]
    exact h.2 n

theorem loop_lastSample_same (now : Nat) {s s1 : State} (hw hw1 : Hw)
    (hl : s.lastSample = s1.lastSample) :
    (loop now s hw).1.lastSample = (loop now s1 hw1).1.lastSample := by
  by_cases hi : elapsed now s.lastSample < sampleInterval
  · rw [loop_idle hw hi, loop_idle hw1 (hl ▸ hi)]
    exact hl
  · rw [loop_lastSample hw (Nat.not_lt.mp hi), loop_lastSample hw1 (hl ▸ Nat.not_lt.mp hi)]

theorem run_sensor2_same (nows : List Nat) (s s1 : State) (hw hw1 : Hw)
    (hb : SameSensor hw hw1 X_PIN_2 Y_PIN_2 Z_PIN_2) (ho : s.offset2 = s1.offset2)
    (hf : s.filt2 = s1.filt2) (hl : s.lastSample = s1.lastSample) :
    (run nows s hw).1.filt2 = (run nows s1 hw1).1.filt2 ∧
    sensor2Of (accelFields (emitted nows s hw)) =
      sensor2Of (accelFields (emitted nows s1 hw1)) := by
  induction nows generalizing s s1 hw hw1 with
  | nil => simpa [run, emitted_nil] using hf
  | cons now rest ih =>
    have hf1 : (loop now s hw).1.filt2 = (loop now s1 hw1).1.filt2 := by
      by_cases hi : elapsed now s.lastSample < sampleInterval
      · rw [loop_idle hw hi, loop_idle hw1 (hl ▸ hi)]
        exact hf
      · rw [loop_emit_state hw (Nat.not_lt.mp hi), loop_emit_state hw1 (hl ▸ Nat.not_lt.mp hi),
          reading2_same hb, ho, hf]
    obtain ⟨ih1, ih2⟩ := ih (loop now s hw).1 (loop now s1 hw1).1 (loop now s hw).2
      (loop now s1 hw1).2 (sameSensor_loop hb now hl)
      (by rw [(loop_offsets now s hw).2, (loop_offsets now s1 hw1).2, ho]) hf1
      (loop_lastSample_same now hw hw1 hl)
    refine ⟨by simpa only [run] using ih1, ?_⟩
    rw [emitted_cons now rest s hw, emitted_cons now rest s1 hw1, accelFields_append,
      accelFields_append]
    by_cases hi : elapsed now s.lastSample < sampleInterval
    · rw [emitted_idle hw hi, emitted_idle hw1 (hl ▸ hi)]
      simpa [accelFields] using ih2
    · rw [emitted_emit hw (Nat.not_lt.mp hi), emitted_emit hw1 (hl ▸ Nat.not_lt.mp hi),
        accelFields_record, accelFields_record]
      rw [sensor2Of_six, sensor2Of_six, hf1, ih2]

theorem run_sensor1_same (nows : List Nat) (s s1 : State) (hw hw1 : Hw)
    (hb : SameSensor hw hw1 X_PIN_1 Y_PIN_1 Z_PIN_1) (ho : s.offset1 = s1.offset1)
    (hf : s.filt1 = s1.filt1) (hl : s.lastSample = s1.lastSample) :
    (run nows s hw).1.filt1 = (run nows s1 hw1).1.filt1 ∧
    sensor1Of (accelFields (emitted nows s hw)) =
      sensor1Of (accelFields (emitted nows s1 hw1)) := by
  induction nows generalizing s s1 hw hw1 with
  | nil => simpa [run, emitted_nil] using hf
  | cons now rest ih =>
    have hf1 : (loop now s hw).1.filt1 = (loop now s1 hw1).1.filt1 := by
      by_cases hi : elapsed now s.lastSample < sampleInterval
      · rw [loop_idle hw hi, loop_idle hw1 (hl ▸ hi)]
        exact hf
      · rw [loop_emit_state hw (Nat.not_lt.mp hi), loop_emit_state hw1 (hl ▸ Nat.not_lt.mp hi),
          reading1_same hb, ho, hf]
    obtain ⟨ih1, ih2⟩ := ih (loop now s hw).1 (loop now s1 hw1).1 (loop now s hw).2
      (loop now s1 hw1).2 (sameSensor_loop hb now hl)
      (by rw [(loop_offsets now s hw).1, (loop_offsets now s1 hw1).1, ho]) hf1
      (loop_lastSample_same now hw hw1 hl)
    refine ⟨by simpa only [run] using ih1, ?_⟩
    rw [emitted_cons now rest s hw, emitted_cons now rest s1 hw1, accelFields_append,
      accelFields_append]
    by_cases hi : elapsed now s.lastSample < sampleInterval
    · rw [emitted_idle hw hi, emitted_idle hw1 (hl ▸ hi)]
      simpa [accelFields] using ih2
    · rw [emitted_emit hw (Nat.not_lt.mp hi), emitted_emit hw1 (hl ▸ Nat.not_lt.mp hi),
        accelFields_record, accelFields_record]
      rw [sensor1Of_six, sensor1Of_six, hf1, ih2]

theorem levelBoard_tiltBoard_same2 : SameSensor levelBoard tiltBoard X_PIN_2 Y_PIN_2 Z_PIN_2 :=
  ⟨rfl, fun _ => ⟨rfl, rfl, rfl⟩⟩

/-- C13: two executions of an emitting tick at the same clock reading that agree on sensor 2's
reading, offset and filter state produce the same sensor-2 filter state and the same fields
ax2, ay2, az2, whatever sensor 1's reading, offset and filter state are; symmetrically for
sensor 1; and over any sequence of tick checks, two boards that agree on the channels of one
sensor yield the same filter states and the same emitted fields for that sensor. -/
theorem sensor_independence (now : Nat) (nows : List Nat) (s s1 : State) (hw hw1 : Hw) :
    (sampleInterval ≤ elapsed now s.lastSample → sampleInterval ≤ elapsed now s1.lastSample →
      reading2 hw = reading2 hw1 → s.offset2 = s1.offset2 → s.filt2 = s1.filt2 →
      (loop now s hw).1.filt2 = (loop now s1 hw1).1.filt2 ∧
      sensor2Of (accelFields (emitted [now] s hw)) =
        [(loop now s hw).1.filt2.x, (loop now s hw).1.filt2.y, (loop now s hw).1.filt2.z] ∧
      sensor2Of (accelFields (emitted [now] s hw)) =
        sensor2Of (accelFields (emitted [now] s1 hw1))) ∧
    (sampleInterval ≤ elapsed now s.lastSample → sampleInterval ≤ elapsed now s1.lastSample →
      reading1 hw = reading1 hw1 → s.offset1 = s1.offset1 → s.filt1 = s1.filt1 →
      (loop now s hw).1.filt1 = (loop now s1 hw1).1.filt1 ∧
      sensor1Of (accelFields (emitted [now] s hw)) =
        [(loop now s hw).1.filt1.x, (loop now s hw).1.filt1.y, (loop now s hw).1.filt1.z] ∧
      sensor1Of (accelFields (emitted [now] s hw)) =
        sensor1Of (accelFields (emitted [now] s1 hw1))) ∧
    (SameSensor hw hw1 X_PIN_2 Y_PIN_2 Z_PIN_2 → s.offset2 = s1.offset2 →
      s.filt2 = s1.filt2 → s.lastSample = s1.lastSample →
      (run nows s hw).1.filt2 = (run nows s1 hw1).1.filt2 ∧
      sensor2Of (accelFields (emitted nows s hw)) =
        sensor2Of (accelFields (emitted nows s1 hw1))) ∧
    (SameSensor hw hw1 X_PIN_1 Y_PIN_1 Z_PIN_1 → s.offset1 = s1.offset1 →
      s.filt1 = s1.filt1 → s.lastSample = s1.lastSample →
      (run nows s hw).1.filt1 = (run nows s1 hw1).1.filt1 ∧
      sensor1Of (accelFields (emitted nows s hw)) =
        sensor1Of (accelFields (emitted nows s1 hw1))) := by
  refine ⟨fun h h1 hr ho hf => ?_, fun h h1 hr ho hf => ?_,
    fun hb ho hf hl => run_sensor2_same nows s s1 hw hw1 hb ho hf hl,
    fun hb ho hf hl => run_sensor1_same nows s s1 hw hw1 hb ho hf hl⟩
  · have e : (loop now s hw).1.filt2 = (loop now s1 hw1).1.filt2 := by
      rw [loop_emit_state hw h, loop_emit_state hw1 h1, hr, ho, hf]
    have f : ∀ (t : State) (b : Hw), sampleInterval ≤ elapsed now t.lastSample →
        sensor2Of (accelFields (emitted [now] t b)) =
          [(loop now t b).1.filt2.x, (loop now t b).1.filt2.y, (loop now t b).1.filt2.z] := by
      intro t b ht
      rw [emitted_emit b ht, accelFields_record]
      rfl
    exact ⟨e, f s hw h, by rw [f s hw h, f s1 hw1 h1, e]⟩
  · have e : (loop now s hw).1.filt1 = (loop now s1 hw1).1.filt1 := by
      rw [loop_emit_state hw h, loop_emit_state hw1 h1, hr, ho, hf]
    have f : ∀ (t : State) (b : Hw), sampleInterval ≤ elapsed now t.lastSample →
        sensor1Of (accelFields (emitted [now] t b)) =
          [(loop now t b).1.filt1.x, (loop now t b).1.filt1.y, (loop now t b).1.filt1.z] := by
      intro t b ht
      rw [emitted_emit b ht, accelFields_record]
      rfl
    exact ⟨e, f s hw h, by rw [f s hw h, f s1 hw1 h1, e]⟩

/-- Witness for C13: the level board against the board with sensor 1 tilted; one emitting
tick at 10 ms, and the tick checks at 10, 15, 20 ms. -/
theorem sensor_independence_witness :
    sampleInterval ≤ elapsed 10 State.init.lastSample ∧
    reading2 levelBoard = reading2 tiltBoard ∧
    SameSensor levelBoard tiltBoard X_PIN_2 Y_PIN_2 Z_PIN_2 ∧
    (loop 10 State.init levelBoard).1.filt2 = (loop 10 State.init tiltBoard).1.filt2 ∧
    sensor2Of (accelFields (emitted [10, 15, 20] State.init levelBoard)) =
      sensor2Of (accelFields (emitted [10, 15, 20] State.init tiltBoard)) :=
  ⟨by decide, reading2_same levelBoard_tiltBoard_same2, levelBoard_tiltBoard_same2,
   ((sensor_independence 10 [10, 15, 20] State.init State.init levelBoard tiltBoard).1
      (by decide) (by decide) (reading2_same levelBoard_tiltBoard_same2) rfl rfl).1,
   ((sensor_independence 10 [10, 15, 20] State.init State.init levelBoard tiltBoard).2.2.1
      levelBoard_tiltBoard_same2 rfl rfl rfl).2⟩

/-! ## Tilted sensor: where ax1 goes -/

theorem calibSamples_steady_upto {x y z : Nat} {v : Vec3} (k : Nat) (hw : Hw)
    (h : ∀ n, n < hw.trace.length + 4 * k →
      adcToAccel (hw.adc x n) = v.x ∧ adcToAccel (hw.adc y n) = v.y ∧
        adcToAccel (hw.adc z n) = v.z) :
    ∀ t ∈ calibSamples x y z k hw, t = v := by
  induction k generalizing hw with
  | zero => simp [calibSamples]
  | succ k ih =>
    intro t ht
    simp only [calibSamples, List.mem_cons] at ht
    rcases ht with ht | ht
    · rw [ht, readAccel_val, (h _ (by omega)).1, (h _ (by omega)).2.1, (h _ (by omega)).2.2]
    · refine ih _ (fun n hn => ?_) t ht
      simp only [delay, readAccel_trace, List.length_append, List.length_cons,
        List.length_nil] at hn
      simpa using h n (by omega)

theorem calibTrace_length (x y z n : Nat) : (calibTrace x y z n).length = 4 * n := by
  induction n with
  | zero => simp [calibTrace]
  | succ n ih =>
    rw [calibTrace_succ, List.length_append, ih]
    simp only [List.length_cons, List.length_nil]
    omega

theorem setup_trace_length (s : State) (hw : Hw) :
    (setup s hw).2.trace.length = hw.trace.length + 1600 := by
  rw [setup_trace, List.length_append, List.length_append, calibTrace_length,
    calibTrace_length]

theorem tiltedFrom_loop {hw : Hw} {v : ℚ} (h : TiltedFrom hw hw.trace.length v)
    {now : Nat} {s : State} (h10 : sampleInterval ≤ elapsed now s.lastSample) :
    TiltedFrom (loop now s hw).2 (loop now s hw).2.trace.length v := by
  intro n hn
  rw [loop_trace_emit hw h10] at hn
  rw [loop_adc]
  exact h n (by omega)

theorem run_tilt (v : ℚ) (nows : List Nat) (s : State) (hw : Hw)
    (ht : TiltedFrom hw hw.trace.length v) (hemit : AllEmit s.lastSample nows) :
    (run nows s hw).1.filt1.x - (v - s.offset1.x) =
      (4 / 10) ^ nows.length * (s.filt1.x - (v - s.offset1.x)) := by
  induction nows generalizing s hw with
  | nil => simp [run]
  | cons now rest ih =>
    obtain ⟨h10, hrest⟩ := hemit
    have hx : (loop now s hw).1.filt1.x = 6 / 10 * (v - s.offset1.x) + 4 / 10 * s.filt1.x := by
      rw [loop_emit_state hw h10]
      simp only [lowPass_eq, subOffset, LPF_ALPHA, reading1, readAccel_val]
      rw [ht _ le_rfl]
      ring
    have := ih (loop now s hw).1 (loop now s hw).2 (tiltedFrom_loop ht h10)
      (by rw [loop_lastSample hw h10]; exact hrest)
    simp only [run, List.length_cons, pow_succ]
    rw [(loop_offsets now s hw).1] at this
    rw [hx] at this
    linear_combination this

theorem ax1After_eq (hw : Hw) (v : ℚ) (nows : List Nat)
    (ht : TiltedFrom hw (setup State.init hw).2.trace.length v)
    (hemit : AllEmit State.init.lastSample nows) :
    ax1After hw nows - (v - (setup State.init hw).1.offset1.x) =
      -((4 / 10) ^ nows.length * v) := by
  have ht1 : TiltedFrom (setup State.init hw).2 (setup State.init hw).2.trace.length v := by
    intro n hn
    rw [setup_adc]
    exact ht n hn
  have := run_tilt v nows (setup State.init hw).1 (setup State.init hw).2 ht1
    (by rw [setup_state]; exact hemit)
  have hf : (setup State.init hw).1.filt1.x = -(setup State.init hw).1.offset1.x := by
    rw [setup_state]
    rfl
  rw [hf] at this
  rw [ax1After, this]
  ring

theorem AllEmit.init {last : Nat} {nows : List Nat} {t : Nat}
    (h : AllEmit last (nows ++ [t])) : AllEmit last nows := by
  induction nows generalizing last with
  | nil => trivial
  | cons now rest ih => exact ⟨h.1, ih h.2⟩

theorem run_emit_last (nows : List Nat) (t : Nat) (s : State) (hw : Hw)
    (h : AllEmit s.lastSample (nows ++ [t])) :
    (run (nows ++ [t]) s hw).2.serial =
      (run nows s hw).2.serial ++
        recordToks t (run (nows ++ [t]) s hw).1.filt1 (run (nows ++ [t]) s hw).1.filt2 := by
  induction nows generalizing s hw with
  | nil => exact loop_emit_serial hw h.1
  | cons now rest ih =>
    exact ih (loop now s hw).1 (loop now s hw).2 (by rw [loop_lastSample hw h.1]; exact h.2)

theorem ticksFrom_allEmit (t n : Nat) (ht : t < ULONG_MOD) : AllEmit t (ticksFrom t n) := by
  induction n generalizing t with
  | zero => trivial
  | succ n ih =>
    refine ⟨?_, ih _ (Nat.mod_lt _ (by decide))⟩
    rw [elapsed_wrap t sampleInterval ht (by decide)]

theorem ticksFrom_length (t n : Nat) : (ticksFrom t n).length = n := by
  induction n generalizing t with
  | zero => rfl
  | succ n ih => simp [ticksFrom, ih]

theorem tiltBoard_offset1 :
    (setup State.init tiltBoard).1.offset1 =
      ⟨adcToAccel 2130, adcToAccel 2048, adcToAccel 2867 - 1⟩ := by
  rw [setup_state]
  refine calibrate_of_const _ _ _ _ ⟨adcToAccel 2130, adcToAccel 2048, adcToAccel 2867⟩
    (calibSamples_steady_upto 200 _ (fun n hn => ?_))
  have hn1 : n < 1600 := by
    have : (preCalibBoard tiltBoard).trace.length = 0 := rfl
    omega
  rw [preCalibBoard_adc]
  simp [tiltBoard, hn1, X_PIN_1, Y_PIN_1, Z_PIN_1, Z_PIN_2]

theorem tiltBoard_tilted :
    TiltedFrom tiltBoard (setup State.init tiltBoard).2.trace.length (adcToAccel 2867) := by
  intro n hn
  rw [setup_trace_length] at hn
  have hn1 : ¬ n < 1600 := by
    have : tiltBoard.trace.length = 0 := rfl
    omega
  simp [tiltBoard, hn1]

theorem tiltBoard_ax1 (nows : List Nat) (hemit : AllEmit State.init.lastSample nows) :
    1 / 10 < |ax1After tiltBoard nows - 1| := by
  have h := ax1After_eq tiltBoard _ nows tiltBoard_tilted hemit
  rw [tiltBoard_offset1] at h
  simp only [adcToAccel_eq] at h
  have hp : (0 : ℚ) ≤ (4 / 10) ^ nows.length := pow_nonneg (by norm_num) _
  have hneg : ax1After tiltBoard nows - 1 < -(1 / 10) := by
    norm_num at h
    nlinarith
  rw [abs_of_neg (by linarith)]
  linarith

/-- C14 (as stated, refuted): sensor 1 rests through calibration with raw 2130 on X (a bias of
about 0.1 g) and afterwards returns raw 2867 on X at every tick, the raw value whose
conversion `1639 / 1638` is nearest above +1.0 g (exactly 1.0 needs raw 2866.5). Then
`|ax1 - 1.0|` stays above 0.1 after any number of emitting ticks, so it does not tend to 0:
ax1 approaches the conversion minus the calibration offset, about 0.9. -/
theorem tilt_not_toward_one :
    |adcToAccel 2867 - 1| ≤ 1 / 1638 ∧
    TiltedFrom tiltBoard (setup State.init tiltBoard).2.trace.length (adcToAccel 2867) ∧
    (∀ nows, AllEmit State.init.lastSample nows → 1 / 10 < |ax1After tiltBoard nows - 1|) ∧
    ¬ (∀ ε : ℚ, 0 < ε → ∃ K : Nat, ∀ nows, AllEmit State.init.lastSample nows →
        K ≤ nows.length → |ax1After tiltBoard nows - 1| < ε) := by
  refine ⟨?_, tiltBoard_tilted, tiltBoard_ax1, fun h => ?_⟩
  · rw [adcToAccel_eq, abs_le]
    norm_num
  · obtain ⟨K, hK⟩ := h (1 / 10) (by norm_num)
    have he : AllEmit State.init.lastSample (ticksFrom State.init.lastSample K) :=
      ticksFrom_allEmit _ K (by decide)
    have h1 := hK _ he (le_of_eq (ticksFrom_length _ K).symm)
    have h2 := tiltBoard_ax1 _ he
    linarith

/-- C14 (amended): over exact arithmetic (the `float` operations taken without rounding), if
from the end of startup on sensor 1's X channel returns at every read a raw value whose
conversion is `v`, then over successive emitting ticks the output field ax1
approaches `v - offset1.x` (the conversion minus the X offset found by calibration):
after `k` emitting ticks `ax1 - (v - offset1.x) = -0.4^k * v`, so the distance strictly
decreases from one emitting tick to the next while `v ≠ 0` and tends to 0; the value is the
first acceleration field of the record the last tick emits. -/
theorem tilt_trend (hw : Hw) (v : ℚ) (nows : List Nat) (t : Nat)
    (ht : TiltedFrom hw (setup State.init hw).2.trace.length v)
    (hemit : AllEmit State.init.lastSample (nows ++ [t])) :
    ax1After hw (nows ++ [t]) - (v - (setup State.init hw).1.offset1.x) =
      -((4 / 10) ^ (nows.length + 1) * v) ∧
    (v ≠ 0 →
      |ax1After hw (nows ++ [t]) - (v - (setup State.init hw).1.offset1.x)| <
        |ax1After hw nows - (v - (setup State.init hw).1.offset1.x)|) ∧
    ((run (nows ++ [t]) (setup State.init hw).1 (setup State.init hw).2).2.serial =
      (run nows (setup State.init hw).1 (setup State.init hw).2).2.serial ++
        recordToks t (run (nows ++ [t]) (setup State.init hw).1 (setup State.init hw).2).1.filt1
          (run (nows ++ [t]) (setup State.init hw).1 (setup State.init hw).2).1.filt2 ∧
      (run (nows ++ [t]) (setup State.init hw).1 (setup State.init hw).2).1.filt1.x =
        ax1After hw (nows ++ [t])) ∧
    (∀ ε : ℚ, 0 < ε → ∃ K : Nat, ∀ ms, AllEmit State.init.lastSample ms → K ≤ ms.length →
      |ax1After hw ms - (v - (setup State.init hw).1.offset1.x)| < ε) := by
  have e1 := ax1After_eq hw v (nows ++ [t]) ht hemit
  have e0 := ax1After_eq hw v nows ht hemit.init
  rw [List.length_append, List.length_singleton] at e1
  refine ⟨e1, fun hv => ?_, ⟨?_, rfl⟩, fun ε hε => ?_⟩
  · have hp : (0 : ℚ) < (4 / 10) ^ nows.length := pow_pos (by norm_num) _
    have hv1 : 0 < |v| := abs_pos.mpr hv
    have hpos : 0 < (4 / 10 : ℚ) ^ nows.length * |v| := mul_pos hp hv1
    rw [e1, e0, abs_neg, abs_neg, abs_mul, abs_mul, abs_of_pos hp,
      abs_of_pos (pow_pos (by norm_num) _), pow_succ]
    nlinarith
  · exact run_emit_last nows t _ _ (by rw [setup_state]; exact hemit)
  · obtain ⟨K, hK⟩ := pow_small (4 / 10) (by norm_num) (by norm_num) v ε hε
    refine ⟨K, fun ms hms hlen => ?_⟩
    rw [ax1After_eq hw v ms ht hms, abs_neg, abs_mul,
      abs_of_nonneg (pow_nonneg (by norm_num) _)]
    exact hK _ hlen

/-- Witness for the amended C14: the tilted board, emitting ticks at 10 and 20 ms. -/
theorem tilt_trend_witness :
    TiltedFrom tiltBoard (setup State.init tiltBoard).2.trace.length (adcToAccel 2867) ∧
    AllEmit State.init.lastSample ([10] ++ [20]) ∧ adcToAccel 2867 ≠ 0 ∧
    ax1After tiltBoard ([10] ++ [20]) -
        (adcToAccel 2867 - (setup State.init tiltBoard).1.offset1.x) =
      -((4 / 10) ^ ([10].length + 1) * adcToAccel 2867) ∧
    |ax1After tiltBoard ([10] ++ [20]) -
        (adcToAccel 2867 - (setup State.init tiltBoard).1.offset1.x)| <
      |ax1After tiltBoard [10] - (adcToAccel 2867 - (setup State.init tiltBoard).1.offset1.x)| :=
  have he : AllEmit State.init.lastSample ([10] ++ [20]) := by
    simp only [AllEmit, State.init, List.singleton_append]
    decide
  have hv : adcToAccel 2867 ≠ 0 := by
    rw [adcToAccel_eq]
    norm_num
  ⟨tiltBoard_tilted, he, hv, (tilt_trend tiltBoard _ [10] 20 tiltBoard_tilted he).1,
   (tilt_trend tiltBoard _ [10] 20 tiltBoard_tilted he).2.1 hv⟩

/-! ## Single precision: where the exact equalities stop -/

theorem f32_constants :
    LPF_ALPHA_F32 = 5033165 / 8388608 ∧ roundF32 (1 - LPF_ALPHA_F32) = 3355443 / 8388608 ∧
    SUPPLY_VOLTAGE_F32 = 13841203 / 4194304 ∧ ZERO_G_OFFSET_F32 = 13841203 / 8388608 ∧
    SENSITIVITY_F32 = 11072963 / 16777216 := by
  decide!

/-- C5 (as stated, refuted): in `float` arithmetic the tick at clock reading 35 on the initial
globals, with raw 2048 on every channel, reads `5244121 / 2^33` on sensor 1's X axis and
leaves `filt1.x = 12585891 / 2^35`, which is not `0.6 * (reading - offset) + 0.4 * filt`:
the constant is `0.6f = 5033165 / 2^23`, not 0.6, and the product is rounded. -/
theorem loop_tick_f32_inexact :
    sampleInterval ≤ elapsed 35 State.init.lastSample ∧
    (readAccelF32 X_PIN_1 Y_PIN_1 Z_PIN_1 (constBoard fun _ => 2048)).1.x =
      5244121 / 8589934592 ∧
    (loopF32 35 State.init (constBoard fun _ => 2048)).1.filt1.x = 12585891 / 34359738368 ∧
    (loopF32 35 State.init (constBoard fun _ => 2048)).1.filt1.x ≠
      6 / 10 * ((readAccelF32 X_PIN_1 Y_PIN_1 Z_PIN_1 (constBoard fun _ => 2048)).1.x -
        State.init.offset1.x) + 4 / 10 * State.init.filt1.x := by
  decide!

end BarController
